import Mathlib

/-!
# IP prefix utilities of the SPF engine (`src/ipaddress.cpp`)

A shallow embedding of the prefix value type of `spf-engine/ipaddress.hpp` and of
the functions of `ipaddress.cpp`, followed by theorems about them.

Conventions of the embedding:

* `uint8_t` buffers are `List Nat`; the one arithmetic operation that can leave the
  byte range (the shift in `mk_bitmask`) is reduced `% 256` as the store into a
  `uint8_t` does.
* `std::size_t` values are `Nat`; the one product the source computes on an
  arbitrary operand (`addr_len * 8` in `mk_bitmask`) is reduced `% 2 ^ 64`.
* `std::string` is `List Char` (a byte string that may hold NUL characters).
* a function that throws returns `Except Fault α`; a member function that mutates
  `*this` returns the outcome together with the state of the object afterwards.
-/

namespace spf

deriving instance DecidableEq for Except

/-- What a call can end in other than a normal return: one of the three exception
classes of `ipaddress.hpp`, or the end of the process (`abort()`, or an exception
leaving a `noexcept` function, which calls `std::terminate`). -/
inductive Fault where
  | IPPrefixParseException
  | IPPrefixNoSupportException
  | IPPrefixInvalidValueException
  | terminated
  deriving DecidableEq, Repr

/-- One past the largest `std::size_t` (64-bit). -/
def SIZE_MOD : Nat := 2 ^ 64

/-- The first loop of `mk_bitmask`:
`for (i = 0; prefix_len >= 8; prefix_len -= 8, i += 1) ret[i] = 0xff;`
started at index `i`; returns the buffer, the final `i` and the final
`prefix_len`. A store past the end of the buffer, which the guard of `mk_bitmask`
excludes, stores nothing here. -/
def mk_bitmask_full : List Nat → Nat → Nat → List Nat × Nat × Nat
  | ret, i, prefix_len + 8 => mk_bitmask_full (ret.set i 0xff) (i + 1) prefix_len
  | ret, i, prefix_len => (ret, i, prefix_len)

/-- The second loop of `mk_bitmask`:
`for (i = 0; i < prefix_len; i += 1) ret[p] = (ret[p] << 1) | 1;`
with `n` iterations left. The stored value is truncated to `uint8_t`. An index `p`
past the end of the buffer, which the guard of `mk_bitmask` excludes whenever the loop
runs, reads 0 and stores nothing here. -/
def mk_bitmask_part : List Nat → Nat → Nat → List Nat
  | ret, _, 0 => ret
  | ret, p, n + 1 => mk_bitmask_part (ret.set p (((ret.getD p 0 <<< 1) ||| 1) % 256)) p n

/-- `mk_bitmask` of `ipaddress.cpp`. -/
def mk_bitmask (addr_len prefix_len : Nat) : Except Fault (List Nat) :=
  if (addr_len * 8) % SIZE_MOD < prefix_len then
    .error .IPPrefixInvalidValueException
  else
    let ret := List.replicate addr_len 0
    let (ret, p, prefix_len) := mk_bitmask_full ret 0 prefix_len
    .ok (mk_bitmask_part ret p prefix_len)

/-- `bitmask_and` of `ipaddress.cpp`: `ret[i] = a[i] & b[i]` for `i < addr_len`. -/
def bitmask_and (addr_len : Nat) (a b : List Nat) : List Nat :=
  (List.range addr_len).map fun i => a.getD i 0 &&& b.getD i 0

/-! ## The prefix entity -/

/-- The two concrete classes derived from `IPPrefix`. -/
inductive Variant where
  | IP4Prefix
  | IP6Prefix
  deriving DecidableEq, Repr

/-- An object of class `IP4Prefix` or `IP6Prefix`: the member `pl` of the base class
and the member `m` (`std::array<uint8_t, 4>` resp. `std::array<uint8_t, 16>`) of the
derived class. -/
structure IPPrefix where
  variant : Variant
  m : List Nat
  pl : Nat
  deriving DecidableEq, Repr

namespace IPPrefix

/-- `IP4Prefix::ipv` / `IP6Prefix::ipv`. -/
def ipv (self : IPPrefix) : Nat :=
  match self.variant with
  | .IP4Prefix => 4
  | .IP6Prefix => 6

/-- `IP4Prefix::length` / `IP6Prefix::length`: `this->m.size()`, the size of the
`std::array` member, fixed by its type. -/
def length (self : IPPrefix) : Nat :=
  match self.variant with
  | .IP4Prefix => 4
  | .IP6Prefix => 16

/-- The object is a value of its C++ type: `m` has the size of its array type and
holds `uint8_t` values, `pl` is a `std::size_t`. -/
def wf (self : IPPrefix) : Prop :=
  self.m.length = self.length ∧ (∀ b ∈ self.m, b < 256) ∧ self.pl < SIZE_MOD

instance (self : IPPrefix) : Decidable self.wf := by
  unfold wf
  infer_instance

/-- The getter `IPPrefix::prefix () const`. -/
def prefix_get (self : IPPrefix) : Nat := self.pl

/-- The setter `IPPrefix::prefix (const std::size_t pl)`: the outcome and the object
afterwards. -/
def prefix_set (self : IPPrefix) (pl : Nat) : Except Fault Unit × IPPrefix :=
  if pl > self.length * 8 then
    (.error .IPPrefixInvalidValueException, self)
  else
    (.ok (), { self with pl := pl })

/-- The getter `addr () const`: `this->m.data()`. -/
def addr (self : IPPrefix) : List Nat := self.m

/-- The setter `addr (const uint8_t *src)`: `memcpy(this->m.data(), src, this->m.size())`.
The source buffer must hold `m.size()` bytes; a read past its end (undefined in the
source) reads 0 here. -/
def addr_set (self : IPPrefix) (src : List Nat) : IPPrefix :=
  { self with m := (List.range self.length).map fun i => src.getD i 0 }

/-- `IPPrefix::network`. It is `noexcept`: an exception of `mk_bitmask` ends the
process. -/
def network (self : IPPrefix) : Except Fault (List Nat) :=
  let al := self.length
  match mk_bitmask al self.pl with
  | .error _ => .error .terminated
  | .ok mask => .ok (bitmask_and al mask self.addr)

end IPPrefix

/-- `IPPrefix::matches`. It is `noexcept`: an exception of `mk_bitmask` ends the
process. -/
def IPPrefix.matches (self other : IPPrefix) : Except Fault Bool :=
  if self.ipv ≠ other.ipv then
    .ok false
  else
    let al := self.length
    match mk_bitmask al self.pl with
    | .error _ => .error .terminated
    | .ok mask =>
      match self.network with
      | .error f => .error f
      | .ok net => .ok (bitmask_and al other.addr mask == net)

/-- `memcmp(a, b, n)`: the sign of the first difference among the first `n` bytes. -/
def memcmp : List Nat → List Nat → Nat → Int
  | _, _, 0 => 0
  | a, b, n + 1 =>
    if a.headD 0 < b.headD 0 then -1
    else if b.headD 0 < a.headD 0 then 1
    else memcmp a.tail b.tail n

/-- `IP4Prefix::equals` / `IP6Prefix::equals`. -/
def IPPrefix.equals (self other : IPPrefix) : Bool :=
  match self.variant with
  | .IP4Prefix =>
    other.length == 4 &&
    self.prefix_get == other.prefix_get &&
    memcmp self.addr other.addr 4 == 0
  | .IP6Prefix =>
    other.length == 16 &&
    self.prefix_get == other.prefix_get &&
    memcmp self.addr other.addr 16 == 0

/-- `IP4Prefix::is_addr` / `IP6Prefix::is_addr`. -/
def IPPrefix.is_addr (self : IPPrefix) : Bool :=
  match self.variant with
  | .IP4Prefix => self.pl == 32
  | .IP6Prefix => self.pl == 128

/-- `IP4Prefix::is_net` / `IP6Prefix::is_net`. -/
def IPPrefix.is_net (self : IPPrefix) : Bool :=
  match self.variant with
  | .IP4Prefix => self.pl < 32
  | .IP6Prefix => self.pl < 128

/-- `new IP4Prefix()`: a value-initialised object (all members zero). -/
def IP4Prefix_new : IPPrefix := ⟨.IP4Prefix, List.replicate 4 0, 0⟩

/-- `new IP6Prefix()`: a value-initialised object (all members zero). -/
def IP6Prefix_new : IPPrefix := ⟨.IP6Prefix, List.replicate 16 0, 0⟩

/-- `ip_addr_from_mem` of `ipaddress.cpp`. -/
def ip_addr_from_mem (ipv : Nat) (addr : List Nat) (pl : Nat) : Except Fault IPPrefix :=
  let created : Option IPPrefix :=
    match ipv with
    | 4 => some IP4Prefix_new
    | 6 => some IP6Prefix_new
    | _ => none
  match created with
  | none => .error .IPPrefixInvalidValueException
  | some ret =>
    let ret := ret.addr_set addr
    match ret.prefix_set pl with
    | (.error f, _) => .error f
    | (.ok _, ret) => .ok ret


/-! ## Text: the platform codec, `std::string` and stream operations -/

/-- The NUL character. -/
def NUL : Char := Char.ofNat 0

/-- `AF_INET` of `<sys/socket.h>`. -/
def AF_INET : Nat := 2

/-- `AF_INET6` of `<sys/socket.h>`. -/
def AF_INET6 : Nat := 10

/-- `INET_ADDRSTRLEN` of `<netinet/in.h>`. -/
def INET_ADDRSTRLEN : Nat := 16

/-- `INET6_ADDRSTRLEN` of `<netinet/in.h>`. -/
def INET6_ADDRSTRLEN : Nat := 46

/-- The address text codec of the platform (`<arpa/inet.h>`), which is not part of
the repository and is a parameter of everything that uses it.

* `pton af src` is what `inet_pton(af, src, dst)` does on the C string `src`: its
  return value (1 decoded, 0 malformed text, negative: family not supported) and the
  bytes it stores at `dst`.
* `ntop af src` is the text `inet_ntop` renders for the address bytes `src`, or
  `none` when the family is not supported. -/
structure Platform where
  pton : Nat → List Char → Int × List Nat
  ntop : Nat → List Nat → Option (List Char)

/-- `inet_ntop(af, src, dst, size)` on a buffer `dst` of `size` characters: `none`
for a null result (family not supported, or the text and its terminating NUL do not
fit in `size`), else the buffer after the call. -/
def inet_ntop (P : Platform) (af : Nat) (src : List Nat) (dst : List Char) (size : Nat) :
    Option (List Char) :=
  match P.ntop af src with
  | none => none
  | some t =>
    if t.length + 1 ≤ size then some (t ++ NUL :: dst.drop (t.length + 1)) else none

/-- `std::string::c_str` read as a C string: the characters before the first NUL. -/
def c_str (s : List Char) : List Char := s.takeWhile fun c => c != NUL

/-- `std::string::find_first_of(c)`: the index of the first `c`, `none` for `npos`. -/
def find_first_of : List Char → Char → Option Nat
  | [], _ => none
  | x :: xs, c => if x = c then some 0 else (find_first_of xs c).map (· + 1)

/-- `std::isspace` in the classic locale. -/
def isspace (c : Char) : Bool :=
  c.toNat == 32 || (9 ≤ c.toNat && c.toNat ≤ 13)

/-- `std::isdigit`. -/
def isdigit (c : Char) : Bool := 48 ≤ c.toNat && c.toNat ≤ 57

/-- The value of a run of decimal digits. -/
def digits_value (ds : List Char) : Nat :=
  ds.foldl (fun acc c => acc * 10 + (c.toNat - 48)) 0

/-- `std::istringstream iss(s); iss >> pl;` for `std::size_t pl` in the classic
locale: `none` when the extraction sets `failbit`, else the value stored. Leading
white space is skipped, one sign is accepted, the longest run of decimal digits is
read and what follows is left in the stream; a field with no digit or a value above
the largest `std::size_t` fails; a field with a minus sign stores the negated value
modulo `2 ^ 64`. -/
def extract_size_t (s : List Char) : Option Nat :=
  let s := s.dropWhile isspace
  let (negative, s) : Bool × List Char :=
    match s with
    | '-' :: r => (true, r)
    | '+' :: r => (false, r)
    | _ => (false, s)
  let ds := s.takeWhile isdigit
  if ds.isEmpty then none
  else
    let v := digits_value ds
    if SIZE_MOD ≤ v then none
    else some (if negative then (SIZE_MOD - v) % SIZE_MOD else v)

/-- `ss << n` for `std::size_t n` in the classic locale: the decimal digits. -/
def insert_size_t (n : Nat) : List Char := Nat.toDigits 10 n

/-- `get_addrstrlen` of `ipaddress.cpp`. -/
def get_addrstrlen (ipv : Nat) : Except Fault Nat :=
  match ipv with
  | 4 => .ok INET_ADDRSTRLEN
  | 6 => .ok INET6_ADDRSTRLEN
  | _ => .error .terminated

/-- `get_addrfamily` of `ipaddress.cpp`. -/
def get_addrfamily (ipv : Nat) : Except Fault Nat :=
  match ipv with
  | 4 => .ok AF_INET
  | 6 => .ok AF_INET6
  | _ => .error .terminated

/-- `IPPrefix::str`. -/
def IPPrefix.str (P : Platform) (self : IPPrefix) : Except Fault (List Char) :=
  let ipv := self.ipv
  let pfx := self.prefix_get
  match get_addrstrlen ipv, get_addrfamily ipv with
  | .ok size, .ok af =>
    let buf := List.replicate size NUL
    match inet_ntop P af self.addr buf buf.length with
    | none => .error .IPPrefixNoSupportException
    | some buf =>
      if pfx ≠ 8 * self.length then
        .ok (c_str buf ++ '/' :: insert_size_t pfx)
      else
        .ok buf
  | _, _ => .error .terminated

/-- The `std::array<uint8_t, n>` filled through its `data()` pointer with `bytes`. -/
def array_of (n : Nat) (bytes : List Nat) : List Nat :=
  (List.range n).map fun i => bytes.getD i 0

/-- `inet_pton4` of `ipaddress.cpp`. -/
def inet_pton4 (P : Platform) (str : List Char) : Except Fault (List Nat) :=
  let (fr, ret) := P.pton AF_INET (c_str str)
  if fr = 0 then .error .IPPrefixParseException
  else if fr < 0 then .error .IPPrefixNoSupportException
  else .ok (array_of 4 ret)

/-- `inet_pton6` of `ipaddress.cpp`. -/
def inet_pton6 (P : Platform) (str : List Char) : Except Fault (List Nat) :=
  let (fr, ret) := P.pton AF_INET6 (c_str str)
  if fr = 0 then .error .IPPrefixParseException
  else if fr < 0 then .error .IPPrefixNoSupportException
  else .ok (array_of 16 ret)

/-- The first block of `parse_ip_addr (str, pl)` (lines 248 to 267): both positions
are computed with `find_first_of`, and the input is split at the slash into
`(addr_part, cidr_part)`. -/
def split_cidr (str : List Char) : Except Fault (List Char × List Char) :=
  let slash_first := find_first_of str '/'
  let slash_last := find_first_of str '/'
  match slash_first, slash_last with
  | some first, some last =>
    if first ≠ last then .error .IPPrefixParseException
    else .ok (str.take first, str.drop (first + 1))
  | _, _ => .ok (str, [])

/-- The `try`/`catch` block of `parse_ip_addr (str, pl)` (lines 269 to 280): the IPv4
decoder, and the IPv6 decoder when the IPv4 decoder throws
`IPPrefixParseException`. -/
def decode_addr (P : Platform) (addr_part : List Char) : Except Fault (List Nat) :=
  match inet_pton4 P addr_part with
  | .error .IPPrefixParseException => inet_pton6 P addr_part
  | r => r

/-- The last block of `parse_ip_addr (str, pl)` (lines 282 to 293): the value left
in `pl`. -/
def read_cidr (cidr_part : List Char) (full_len : Nat) : Except Fault Nat :=
  if cidr_part.isEmpty then .ok full_len
  else
    match extract_size_t cidr_part with
    | none => .error .IPPrefixParseException
    | some pl =>
      if pl > full_len then .error .IPPrefixParseException
      else .ok pl

/-- `parse_ip_addr (const std::string &str, std::size_t &pl)` of `ipaddress.cpp`:
the bytes returned and the value left in `pl`. -/
def parse_ip_addr_pl (P : Platform) (str : List Char) : Except Fault (List Nat × Nat) :=
  match split_cidr str with
  | .error f => .error f
  | .ok (addr_part, cidr_part) =>
    match decode_addr P addr_part with
    | .error f => .error f
    | .ok ret =>
      match read_cidr cidr_part (ret.length * 8) with
      | .error f => .error f
      | .ok pl => .ok (ret, pl)

/-- `parse_ip_addr (const std::string &str)` of `ipaddress.cpp`. -/
def parse_ip_addr (P : Platform) (str : List Char) : Except Fault IPPrefix :=
  match parse_ip_addr_pl P str with
  | .error f => .error f
  | .ok (buf, pl) =>
    let created : Option IPPrefix :=
      match buf.length with
      | 4 => some IP4Prefix_new
      | 16 => some IP6Prefix_new
      | _ => none
    match created with
    | none => .error .terminated
    | some ret =>
      let ret := ret.addr_set buf
      match ret.prefix_set pl with
      | (.error f, _) => .error f
      | (.ok _, ret) => .ok ret

/-! ## A concrete platform for the scenarios: IPv4 dotted-quad text only -/

/-- Splits a text at every `sep`. -/
def split_at (sep : Char) : List Char → List (List Char)
  | [] => [[]]
  | c :: cs =>
    match split_at sep cs with
    | [] => [[]]
    | part :: parts => if c = sep then [] :: part :: parts else (c :: part) :: parts

/-- One decimal octet of dotted-quad text: one to three digits, no leading zero before
another digit, value at most 255. -/
def octet_value (ds : List Char) : Option Nat :=
  if ds.isEmpty || 3 < ds.length || !ds.all isdigit then none
  else if 1 < ds.length && ds.head? == some '0' then none
  else if 255 < digits_value ds then none
  else some (digits_value ds)

/-- `inet_pton(AF_INET, src, dst)` on dotted-quad text. -/
def dotted_quad_decode (src : List Char) : Int × List Nat :=
  match (split_at '.' src).map octet_value with
  | [some a, some b, some c, some d] => (1, [a, b, c, d])
  | _ => (0, [])

/-- `inet_ntop(AF_INET, src, ...)`: the four octets in decimal, joined by dots. -/
def dotted_quad_encode (src : List Nat) : List Char :=
  List.intercalate ['.'] ((array_of 4 src).map fun b => Nat.toDigits 10 b)

/-- A platform whose codec supports the family `AF_INET` only: the other families are
answered with "not supported" (`inet_pton` returns -1, `inet_ntop` returns null). -/
def inet4_platform : Platform where
  pton af src := if af = AF_INET then dotted_quad_decode src else (-1, [])
  ntop af src := if af = AF_INET then some (dotted_quad_encode src) else none

/-! ## A concrete platform with both families: colon-hex text for IPv6 -/

/-- The value of a hexadecimal digit. -/
def hex_digit_value (c : Char) : Option Nat :=
  if 48 ≤ c.toNat && c.toNat ≤ 57 then some (c.toNat - 48)
  else if 97 ≤ c.toNat && c.toNat ≤ 102 then some (c.toNat - 87)
  else if 65 ≤ c.toNat && c.toNat ≤ 70 then some (c.toNat - 55)
  else none

/-- One group of colon-hex text: one to four hexadecimal digits, as two bytes. -/
def hex_group (g : List Char) : Option (List Nat) :=
  if g.isEmpty || 4 < g.length then none
  else
    match g.mapM hex_digit_value with
    | none => none
    | some ds =>
      let v := ds.foldl (fun acc d => acc * 16 + d) 0
      some [v / 256, v % 256]

/-- The bytes of a run of groups separated by colons; the last group may be dotted-quad
text when `tail4` is set. -/
def groups_bytes (tail4 : Bool) : List (List Char) → Option (List Nat)
  | [] => some []
  | [g] =>
    match hex_group g with
    | some b => some b
    | none =>
      if tail4 then
        match dotted_quad_decode g with
        | (1, b) => some b
        | _ => none
      else none
  | g :: gs =>
    match hex_group g, groups_bytes tail4 gs with
    | some b, some bs => some (b ++ bs)
    | _, _ => none

/-- Splits a text at its first `::`. -/
def split_double_colon : List Char → Option (List Char × List Char)
  | [] => none
  | [_] => none
  | c :: d :: rest =>
    if c = ':' ∧ d = ':' then some ([], rest)
    else (split_double_colon (d :: rest)).map fun (l, r) => (c :: l, r)

/-- `inet_pton(AF_INET6, src, dst)` on colon-hex text. -/
def colon_hex_decode (src : List Char) : Int × List Nat :=
  match split_double_colon src with
  | none =>
    match groups_bytes true (split_at ':' src) with
    | some b => if b.length = 16 then (1, b) else (0, [])
    | none => (0, [])
  | some (l, r) =>
    let left := if l.isEmpty then some [] else groups_bytes false (split_at ':' l)
    let right := if r.isEmpty then some [] else groups_bytes true (split_at ':' r)
    match left, right with
    | some lb, some rb =>
      if lb.length + rb.length ≤ 14 then
        (1, lb ++ List.replicate (16 - (lb.length + rb.length)) 0 ++ rb)
      else (0, [])
    | _, _ => (0, [])

/-- The eight 16-bit words of an IPv6 address. -/
def words_of (src : List Nat) : List Nat :=
  (List.range 8).map fun i => src.getD (2 * i) 0 * 256 + src.getD (2 * i + 1) 0

/-- The length of the run of zero words at the head of a list. -/
def zero_run : List Nat → Nat
  | 0 :: ws => zero_run ws + 1
  | _ => 0

/-- The longest run of at least two zero words, the first of the longest: its first
index and its length. -/
def best_zero_run (ws : List Nat) : Option (Nat × Nat) :=
  (List.range 8).foldl (fun best i =>
    let len := zero_run (ws.drop i)
    let longer : Bool :=
      match best with
      | none => true
      | some (_, l) => decide (l < len)
    if decide (2 ≤ len) && longer then some (i, len) else best) none

/-- `inet_ntop(AF_INET6, src, ...)`: colon-hex text with the longest run of zero words
written `::` and, for an address that embeds an IPv4 address, a dotted-quad tail. -/
def colon_hex_encode (src : List Nat) : List Char :=
  let ws := words_of src
  let best := best_zero_run ws
  let inside (i : Nat) : Bool :=
    match best with
    | none => false
    | some (b, l) => decide (b ≤ i ∧ i < b + l)
  let embedded : Bool :=
    match best with
    | some (0, 6) => true
    | some (0, 5) => ws.getD 5 0 == 0xffff
    | _ => false
  let body := (List.range 8).foldl (fun (acc : List Char × Bool) i =>
    if acc.2 then acc
    else if inside i then
      (if best.map (·.1) == some i then acc.1 ++ [':'] else acc.1, false)
    else
      let sep := if i ≠ 0 then acc.1 ++ [':'] else acc.1
      if i = 6 ∧ embedded then (sep ++ dotted_quad_encode (src.drop 12), true)
      else (sep ++ Nat.toDigits 16 (ws.getD i 0), false)) ([], false)
  match best with
  | some (b, l) => if b + l = 8 then body.1 ++ [':'] else body.1
  | none => body.1

/-- A platform whose codec supports the families `AF_INET` (dotted-quad text) and
`AF_INET6` (colon-hex text). -/
def inet_platform : Platform where
  pton af src :=
    if af = AF_INET then dotted_quad_decode src
    else if af = AF_INET6 then colon_hex_decode src
    else (-1, [])
  ntop af src :=
    if af = AF_INET then some (dotted_quad_encode src)
    else if af = AF_INET6 then some (colon_hex_encode src)
    else none

/-! ## Sequences of setter calls -/

/-- One call of a mutating member function on an entity: the setter of the prefix
length or the setter of the address. -/
inductive Call where
  | prefix_set (pl : Nat)
  | addr_set (src : List Nat)
  deriving DecidableEq, Repr

/-- The object after one setter call, whether the call returned or threw. -/
def IPPrefix.call (self : IPPrefix) : Call → IPPrefix
  | .prefix_set pl => (self.prefix_set pl).2
  | .addr_set src => self.addr_set src

/-- The object after a sequence of setter calls, in order. -/
def IPPrefix.calls (self : IPPrefix) (cs : List Call) : IPPrefix :=
  cs.foldl IPPrefix.call self

/-! ## `mk_bitmask` with every store checked against the bounds of the buffer -/

/-- The first loop of `mk_bitmask` as `mk_bitmask_full`, with `none` as soon as a
store `ret[i] = 0xff` has its index outside the buffer. -/
def mk_bitmask_full_checked : List Nat → Nat → Nat → Option (List Nat × Nat × Nat)
  | ret, i, prefix_len + 8 =>
    if i < ret.length then mk_bitmask_full_checked (ret.set i 0xff) (i + 1) prefix_len
    else none
  | ret, i, prefix_len => some (ret, i, prefix_len)

/-- The second loop of `mk_bitmask` as `mk_bitmask_part`, with `none` as soon as an
access `ret[p]` has its index outside the buffer. -/
def mk_bitmask_part_checked : List Nat → Nat → Nat → Option (List Nat)
  | ret, _, 0 => some ret
  | ret, p, n + 1 =>
    if p < ret.length then
      mk_bitmask_part_checked (ret.set p (((ret.getD p 0 <<< 1) ||| 1) % 256)) p n
    else none

/-- `mk_bitmask` with checked stores: `.ok none` when a store falls outside the
`addr_len` bytes of `ret`. -/
def mk_bitmask_checked (addr_len prefix_len : Nat) : Except Fault (Option (List Nat)) :=
  if (addr_len * 8) % SIZE_MOD < prefix_len then
    .error .IPPrefixInvalidValueException
  else
    let ret := List.replicate addr_len 0
    match mk_bitmask_full_checked ret 0 prefix_len with
    | none => .ok none
    | some (ret, p, prefix_len) => .ok (mk_bitmask_part_checked ret p prefix_len)

/-! ## Theorems -/

/-! ### Helper lemmas -/

theorem getD_map_range (f : Nat → Nat) (n i : Nat) (h : i < n) :
    ((List.range n).map f).getD i 0 = f i := by
  simp [List.getD_eq_getElem?_getD, List.getElem?_map, List.getElem?_range, h]

theorem map_range_getD (a : List Nat) (n : Nat) (h : a.length = n) :
    ((List.range n).map fun i => a.getD i 0) = a := by
  apply List.ext_getElem
  · simp [h]
  · intro i h1 h2
    simp [List.getD_eq_getElem?_getD, List.getElem?_eq_getElem h2]

theorem land_255 (b : Nat) (h : b < 256) : b &&& 255 = b := by
  have : b &&& (2 ^ 8 - 1) = b % 2 ^ 8 := Nat.and_pow_two_sub_one_eq_mod b 8
  simpa [Nat.mod_eq_of_lt h] using this

theorem bitmask_and_length (n : Nat) (a b : List Nat) : (bitmask_and n a b).length = n := by
  simp [bitmask_and]

theorem bitmask_and_getD (n : Nat) (a b : List Nat) (i : Nat) (h : i < n) :
    (bitmask_and n a b).getD i 0 = a.getD i 0 &&& b.getD i 0 := by
  unfold bitmask_and
  exact getD_map_range _ n i h

theorem bitmask_and_comm (n : Nat) (a b : List Nat) : bitmask_and n a b = bitmask_and n b a := by
  unfold bitmask_and
  apply List.map_congr_left
  intro i _
  exact Nat.land_comm _ _

theorem bitmask_and_ones (n : Nat) (a : List Nat) (hlen : a.length = n)
    (hbytes : ∀ b ∈ a, b < 256) : bitmask_and n a (List.replicate n 255) = a := by
  apply List.ext_getElem
  · simp [bitmask_and, hlen]
  · intro i h1 h2
    have hi : i < n := by simpa [bitmask_and] using h1
    have hb : a[i] < 256 := hbytes _ (List.getElem_mem h2)
    simp [bitmask_and, List.getD_eq_getElem?_getD, List.getElem?_eq_getElem h2,
      List.getElem?_replicate, hi, land_255 _ hb]

theorem bitmask_and_idem (n : Nat) (mask a : List Nat) :
    bitmask_and n mask ((List.range n).map fun i => (bitmask_and n mask a).getD i 0)
      = bitmask_and n mask a := by
  unfold bitmask_and
  apply List.map_congr_left
  intro i hi
  have hi : i < n := List.mem_range.mp hi
  rw [getD_map_range _ n i hi, getD_map_range _ n i hi, ← Nat.land_assoc, Nat.and_self]

theorem memcmp_eq_zero_iff (n : Nat) : ∀ (a b : List Nat), a.length = n → b.length = n →
    (memcmp a b n = 0 ↔ a = b) := by
  induction n with
  | zero =>
    intro a b ha hb
    simp [List.length_eq_zero.mp ha, List.length_eq_zero.mp hb, memcmp]
  | succ n ih =>
    intro a b ha hb
    match a, b, ha, hb with
    | x :: xs, y :: ys, ha, hb =>
      have hxs : xs.length = n := by simpa using ha
      have hys : ys.length = n := by simpa using hb
      simp only [memcmp, List.headD_cons, List.tail_cons]
      by_cases h1 : x < y
      · simp [h1]; omega
      · by_cases h2 : y < x
        · simp [h1, h2]; omega
        · have : x = y := by omega
          simp [h1, h2, ih xs ys hxs hys, this]

theorem mk_bitmask_ok (addr_len prefix_len : Nat) (h : prefix_len ≤ (addr_len * 8) % SIZE_MOD) :
    ∃ mask, mk_bitmask addr_len prefix_len = .ok mask := by
  unfold mk_bitmask
  rw [if_neg (by omega)]
  exact ⟨_, rfl⟩

theorem ip_addr_from_mem_4 (addr : List Nat) (pl : Nat) (h : pl ≤ 32) :
    ip_addr_from_mem 4 addr pl
      = .ok ⟨.IP4Prefix, (List.range 4).map fun i => addr.getD i 0, pl⟩ := by
  simp only [ip_addr_from_mem, IP4Prefix_new, IPPrefix.addr_set, IPPrefix.prefix_set,
    IPPrefix.length]
  rw [if_neg (by omega)]

theorem ip_addr_from_mem_6 (addr : List Nat) (pl : Nat) (h : pl ≤ 128) :
    ip_addr_from_mem 6 addr pl
      = .ok ⟨.IP6Prefix, (List.range 16).map fun i => addr.getD i 0, pl⟩ := by
  simp only [ip_addr_from_mem, IP6Prefix_new, IPPrefix.addr_set, IPPrefix.prefix_set,
    IPPrefix.length]
  rw [if_neg (by omega)]

theorem mk_bitmask_full_width_4 : mk_bitmask 4 32 = .ok (List.replicate 4 255) := by
  decide

theorem mk_bitmask_full_width_16 : mk_bitmask 16 128 = .ok (List.replicate 16 255) := by
  decide

theorem decode_addr_v4 (P : Platform) (s : List Char) (bytes : List Nat)
    (h : P.pton AF_INET (c_str s) = (1, bytes)) :
    decode_addr P s = .ok (array_of 4 bytes) := by
  simp [decode_addr, inet_pton4, h]

theorem decode_addr_v6 (P : Platform) (s : List Char) (bytes : List Nat)
    (h4 : (P.pton AF_INET (c_str s)).1 = 0)
    (h6 : P.pton AF_INET6 (c_str s) = (1, bytes)) :
    decode_addr P s = .ok (array_of 16 bytes) := by
  simp [decode_addr, inet_pton4, h4, inet_pton6, h6]

theorem array_of_eq (n : Nat) (bytes : List Nat) (h : bytes.length = n) :
    array_of n bytes = bytes := map_range_getD bytes n h

theorem array_of_length (n : Nat) (bytes : List Nat) : (array_of n bytes).length = n := by
  simp [array_of]

theorem parse_ip_addr_v4 (P : Platform) (str addr_part cidr_part : List Char)
    (ret : List Nat) (pl : Nat) (hsplit : split_cidr str = .ok (addr_part, cidr_part))
    (hdec : decode_addr P addr_part = .ok ret) (hlen : ret.length = 4)
    (hcidr : read_cidr cidr_part 32 = .ok pl) (hpl : pl ≤ 32) :
    parse_ip_addr P str = .ok ⟨.IP4Prefix, ret, pl⟩ := by
  simp only [parse_ip_addr, parse_ip_addr_pl, hsplit, hdec, hlen, hcidr, IP4Prefix_new,
    IPPrefix.addr_set, IPPrefix.prefix_set, IPPrefix.length]
  rw [if_neg (by omega), map_range_getD ret 4 hlen]

theorem parse_ip_addr_v6 (P : Platform) (str addr_part cidr_part : List Char)
    (ret : List Nat) (pl : Nat) (hsplit : split_cidr str = .ok (addr_part, cidr_part))
    (hdec : decode_addr P addr_part = .ok ret) (hlen : ret.length = 16)
    (hcidr : read_cidr cidr_part 128 = .ok pl) (hpl : pl ≤ 128) :
    parse_ip_addr P str = .ok ⟨.IP6Prefix, ret, pl⟩ := by
  simp only [parse_ip_addr, parse_ip_addr_pl, hsplit, hdec, hlen, hcidr, IP6Prefix_new,
    IPPrefix.addr_set, IPPrefix.prefix_set, IPPrefix.length]
  rw [if_neg (by omega), map_range_getD ret 16 hlen]

theorem equals_iff_of_wf (A B : IPPrefix) (hA : A.wf) (hB : B.wf) :
    A.equals B = true ↔ A.length = B.length ∧ A.pl = B.pl ∧ A.addr = B.addr := by
  obtain ⟨hAl, -, -⟩ := hA
  obtain ⟨hBl, -, -⟩ := hB
  obtain ⟨va, ma, pa⟩ := A
  obtain ⟨vb, mb, pb⟩ := B
  cases va <;> cases vb <;>
    simp only [IPPrefix.length] at hAl hBl <;>
    simp [IPPrefix.equals, IPPrefix.length, IPPrefix.prefix_get, IPPrefix.addr]
  · intro _
    exact memcmp_eq_zero_iff 4 ma mb hAl hBl
  · intro _
    exact memcmp_eq_zero_iff 16 ma mb hAl hBl

theorem find_first_of_none (s : List Char) (c : Char) (h : c ∉ s) :
    find_first_of s c = none := by
  induction s with
  | nil => rfl
  | cons x xs ih =>
    have hx : x ≠ c := fun hxc => h (by simp [hxc])
    have hxs : c ∉ xs := fun hc => h (List.mem_cons_of_mem _ hc)
    simp [find_first_of, hx, ih hxs]

theorem find_first_of_append (t r : List Char) (c : Char) (h : c ∉ t) :
    find_first_of (t ++ c :: r) c = some t.length := by
  induction t with
  | nil => simp [find_first_of]
  | cons x xs ih =>
    have hx : x ≠ c := fun hxc => h (by simp [hxc])
    have hxs : c ∉ xs := fun hc => h (List.mem_cons_of_mem _ hc)
    simp [find_first_of, hx, ih hxs]

theorem c_str_append_NUL (t r : List Char) (h : NUL ∉ t) : c_str (t ++ NUL :: r) = t := by
  induction t with
  | nil => simp [c_str, List.takeWhile]
  | cons x xs ih =>
    have hx : x ≠ NUL := fun hxc => h (by simp [hxc])
    have hxs : NUL ∉ xs := fun hc => h (List.mem_cons_of_mem _ hc)
    have hb : (x != NUL) = true := by simp [hx]
    have := ih hxs
    simp only [c_str] at this ⊢
    simp [List.takeWhile_cons, hb, this]

theorem c_str_of_not_mem (t : List Char) (h : NUL ∉ t) : c_str t = t := by
  induction t with
  | nil => simp [c_str]
  | cons x xs ih =>
    have hx : x ≠ NUL := fun hxc => h (by simp [hxc])
    have hxs : NUL ∉ xs := fun hc => h (List.mem_cons_of_mem _ hc)
    have hb : (x != NUL) = true := by simp [hx]
    have := ih hxs
    simp only [c_str] at this ⊢
    simp [List.takeWhile_cons, hb, this]

theorem insert_extract_size_t :
    ∀ n, n ≤ 128 →
      (insert_size_t n).isEmpty = false ∧ extract_size_t (insert_size_t n) = some n := by
  decide

theorem ntop_buffer (t : List Char) (size : Nat) :
    t ++ NUL :: List.drop (t.length + 1) (List.replicate size NUL)
      = t ++ NUL :: List.replicate (size - (t.length + 1)) NUL := by
  rw [List.drop_replicate]

theorem split_cidr_host (t r : List Char) (hslash : '/' ∉ t) (hr : '/' ∉ r) :
    split_cidr (t ++ NUL :: r) = .ok (t ++ NUL :: r, []) := by
  have h : '/' ∉ t ++ NUL :: r := by
    simp only [List.mem_append, List.mem_cons, not_or]
    exact ⟨hslash, by decide, hr⟩
  simp [split_cidr, find_first_of_none _ _ h]

theorem split_cidr_net (t d : List Char) (hslash : '/' ∉ t) :
    split_cidr (t ++ '/' :: d) = .ok (t, d) := by
  simp [split_cidr, find_first_of_append t d '/' hslash]

theorem read_cidr_digits (n full_len : Nat) (h : n ≤ 128) (hfull : n ≤ full_len) :
    read_cidr (insert_size_t n) full_len = .ok n := by
  obtain ⟨h1, h2⟩ := insert_extract_size_t n h
  simp [read_cidr, h1, h2, hfull]

theorem mk_bitmask_full_spec (n : Nat) : ∀ (ret : List Nat) (i : Nat),
    (mk_bitmask_full ret i n).2.1 = i + n / 8 ∧
    (mk_bitmask_full ret i n).2.2 = n % 8 ∧
    (mk_bitmask_full ret i n).1.length = ret.length ∧
    ∀ j, (mk_bitmask_full ret i n).1.getD j 0
      = if i ≤ j ∧ j < i + n / 8 ∧ j < ret.length then 255 else ret.getD j 0 := by
  induction n using Nat.strong_induction_on with
  | _ n ih =>
    intro ret i
    by_cases h : 8 ≤ n
    · obtain ⟨k, rfl⟩ : ∃ k, n = k + 8 := ⟨n - 8, by omega⟩
      obtain ⟨h1, h2, h3, h4⟩ := ih k (by omega) (ret.set i 0xff) (i + 1)
      have hdiv : (k + 8) / 8 = k / 8 + 1 := by omega
      have hmod : (k + 8) % 8 = k % 8 := by omega
      rw [mk_bitmask_full]
      refine ⟨by omega, by omega, by simpa using h3, ?_⟩
      intro j
      rw [h4 j, hdiv]
      simp only [List.length_set, List.getD_eq_getElem?_getD, List.getElem?_set]
      by_cases hj : i = j
      · subst hj
        by_cases hl : i < ret.length
        · simp [hl]
        · simp [hl, List.getElem?_eq_none (Nat.le_of_not_lt hl)]
      · simp only [hj, if_false]
        by_cases hc : i + 1 ≤ j ∧ j < i + 1 + k / 8 ∧ j < ret.length
        · rw [if_pos hc, if_pos (by omega)]
        · rw [if_neg hc, if_neg (by omega)]
    · have hdiv : n / 8 = 0 := by omega
      have hmod : n % 8 = n := by omega
      have : mk_bitmask_full ret i n = (ret, i, n) := by
        unfold mk_bitmask_full
        split
        · omega
        · rfl
      rw [this, hdiv, hmod]
      refine ⟨rfl, rfl, rfl, ?_⟩
      intro j
      rw [if_neg (by omega)]

theorem partial_byte_step (m : Nat) (h : m < 8) :
    (((2 ^ m - 1) <<< 1) ||| 1) % 256 = 2 ^ (m + 1) - 1 := by
  interval_cases m <;> decide

theorem mk_bitmask_part_spec (k : Nat) : ∀ (ret : List Nat) (p m : Nat),
    p < ret.length → ret.getD p 0 = 2 ^ m - 1 → m + k ≤ 8 →
    (mk_bitmask_part ret p k).length = ret.length ∧
    ∀ j, (mk_bitmask_part ret p k).getD j 0
      = if j = p then 2 ^ (m + k) - 1 else ret.getD j 0 := by
  induction k with
  | zero =>
    intro ret p m _ hv _
    refine ⟨rfl, ?_⟩
    intro j
    by_cases hj : j = p
    · subst hj
      simpa [mk_bitmask_part] using hv
    · simp [mk_bitmask_part, hj]
  | succ k ih =>
    intro ret p m hp hv hm
    have hset : (ret.set p (((ret.getD p 0 <<< 1) ||| 1) % 256)).getD p 0 = 2 ^ (m + 1) - 1 := by
      rw [hv, partial_byte_step m (by omega)]
      simp [List.getD_eq_getElem?_getD, List.getElem?_set, hp]
    obtain ⟨h1, h2⟩ := ih (ret.set p (((ret.getD p 0 <<< 1) ||| 1) % 256)) p (m + 1)
      (by simpa using hp) hset (by omega)
    rw [mk_bitmask_part]
    refine ⟨by simpa using h1, ?_⟩
    intro j
    rw [h2 j]
    by_cases hj : j = p
    · simp [hj, Nat.add_assoc, Nat.add_comm 1 k]
    · have hj' : p ≠ j := fun h => hj h.symm
      simp [hj, List.getD_eq_getElem?_getD, List.getElem?_set, hj']

theorem mk_bitmask_part_zero (ret : List Nat) (p : Nat) : mk_bitmask_part ret p 0 = ret := by
  cases ret <;> rfl

/-- What `mk_bitmask` computes: below the bound it returns `addr_len` bytes, `FF` at
every index below `prefix_len / 8`, the value `2 ^ (prefix_len % 8) - 1` (the
`prefix_len % 8` low-order bits) at index `prefix_len / 8`, and `00` after it. -/
theorem mk_bitmask_eq (addr_len prefix_len : Nat) (h8 : addr_len * 8 < SIZE_MOD)
    (h : prefix_len ≤ addr_len * 8) :
    mk_bitmask addr_len prefix_len = .ok ((List.range addr_len).map fun i =>
      if i < prefix_len / 8 then 255
      else if i = prefix_len / 8 then 2 ^ (prefix_len % 8) - 1 else 0) := by
  obtain ⟨h1, h2, h3, h4⟩ := mk_bitmask_full_spec prefix_len (List.replicate addr_len 0) 0
  unfold mk_bitmask
  rw [if_neg (by rw [Nat.mod_eq_of_lt h8]; omega)]
  simp only
  generalize mk_bitmask_full (List.replicate addr_len 0) 0 prefix_len = r at h1 h2 h3 h4
  obtain ⟨ret, p, k⟩ := r
  simp only at h1 h2 h3 h4
  simp only [List.length_replicate] at h3 h4
  subst h1 h2
  simp only [Nat.zero_add, Nat.zero_le, true_and] at h4 ⊢
  congr 1
  by_cases hp : prefix_len / 8 < addr_len
  · have hz : ret.getD (prefix_len / 8) 0 = 2 ^ 0 - 1 := by
      rw [h4]
      simp [List.getD_eq_getElem?_getD, List.getElem?_replicate, hp]
    obtain ⟨l1, l2⟩ := mk_bitmask_part_spec (prefix_len % 8) ret (prefix_len / 8) 0
      (by omega) hz (by omega)
    apply List.ext_getElem
    · simp [l1, h3]
    · intro j hj1 hj2
      have hj : j < addr_len := by simpa using hj2
      have := l2 j
      rw [List.getD_eq_getElem?_getD, List.getElem?_eq_getElem hj1] at this
      simp only [Option.getD_some] at this
      rw [this, h4 j]
      simp only [List.getElem_map, List.getElem_range, Nat.zero_add]
      by_cases c1 : j < prefix_len / 8
      · have c2 : j ≠ prefix_len / 8 := by omega
        simp [c1, c2, hj]
      · by_cases c2 : j = prefix_len / 8
        · simp [c2]
        · simp [c1, c2, List.getD_eq_getElem?_getD, List.getElem?_replicate, hj]
  · have hk : prefix_len % 8 = 0 := by omega
    rw [hk, mk_bitmask_part_zero]
    apply List.ext_getElem
    · simp [h3]
    · intro j hj1 hj2
      have hj : j < addr_len := by simpa using hj2
      have := h4 j
      rw [List.getD_eq_getElem?_getD, List.getElem?_eq_getElem hj1] at this
      simp only [Option.getD_some] at this
      rw [this]
      have c1 : j < prefix_len / 8 := by omega
      simp [c1, hj]

theorem str_network_is_text (P : Platform) (e : IPPrefix) (t : List Char)
    (hv : e.variant = .IP4Prefix) (hpl : e.pl ≠ 32)
    (ht : P.ntop AF_INET e.addr = some t) (hfit : t.length < INET_ADDRSTRLEN)
    (hnul : NUL ∉ t) :
    e.str P = .ok (t ++ '/' :: insert_size_t e.pl) := by
  obtain ⟨variant, m, pl⟩ := e
  simp only at hv hpl
  subst hv
  simp only [IPPrefix.addr] at ht
  simp only [IPPrefix.str, IPPrefix.ipv, IPPrefix.prefix_get, IPPrefix.length,
    IPPrefix.addr, get_addrstrlen, get_addrfamily, inet_ntop, ht, List.length_replicate]
  rw [if_pos (by omega), ntop_buffer t _]
  simp only [c_str_append_NUL t _ hnul]
  rw [if_pos (by omega)]

/-- C1 (evaluation at the failing input): `mk_bitmask(4, 20)` returns the bytes
`FF FF 0F 00`: the partial byte has its four low-order bits set, so the mask is not the
network mask `FF FF F0 00` of a 20-bit prefix. -/
theorem mk_bitmask_4_20_low_order_bits :
    mk_bitmask 4 20 = .ok [0xFF, 0xFF, 0x0F, 0x00] ∧
    mk_bitmask 4 20 ≠ .ok [0xFF, 0xFF, 0xF0, 0x00] := by
  decide

/-- C2 (evaluation at the failing input): `10.0.16.0/20` matches `10.0.0.0/8`-style
byte-aligned cases correctly (`10.0.0.0/8` matches `10.5.6.7` and not `11.0.0.1`), but
`10.0.16.0/20` does not match `10.0.31.1`, an address inside that network, and it does
match `10.0.240.5`, an address outside it. -/
theorem matches_20_bit_prefix_wrong :
    (IPPrefix.mk .IP4Prefix [10, 0, 0, 0] 8).matches (IPPrefix.mk .IP4Prefix [10, 5, 6, 7] 32)
      = .ok true ∧
    (IPPrefix.mk .IP4Prefix [10, 0, 0, 0] 8).matches (IPPrefix.mk .IP4Prefix [11, 0, 0, 1] 32)
      = .ok false ∧
    (IPPrefix.mk .IP4Prefix [10, 0, 16, 0] 20).matches (IPPrefix.mk .IP4Prefix [10, 0, 31, 1] 32)
      = .ok false ∧
    (IPPrefix.mk .IP4Prefix [10, 0, 16, 0] 20).matches (IPPrefix.mk .IP4Prefix [10, 0, 240, 5] 32)
      = .ok true := by
  decide

/-- C3 (evaluation at the failing input): the network of `10.0.0.0/8` is `10.0.0.0`,
but the network of `192.168.255.255/20` is computed as `192.168.15.0`, not
`192.168.240.0`: the first 20 bits are not kept (bits 16 to 19 are cleared) and bits
20 to 23, beyond the prefix, are not zeroed. -/
theorem network_20_bit_prefix_wrong :
    (IPPrefix.mk .IP4Prefix [10, 0, 0, 0] 8).network = .ok [10, 0, 0, 0] ∧
    (IPPrefix.mk .IP4Prefix [192, 168, 255, 255] 20).network = .ok [192, 168, 15, 0] ∧
    (IPPrefix.mk .IP4Prefix [192, 168, 255, 255] 20).network ≠ .ok [192, 168, 240, 0] := by
  decide

/-- C4 (evaluation at the failing input): the check for a second slash compares two
results of the same `find_first_of` call, so the split never fails; with a codec that
decodes `1.2.3.4`, parsing `1.2.3.4/8/16` returns the IPv4 entity `1.2.3.4/8` and no
`IPPrefixParseException` is raised. -/
theorem parse_ip_addr_two_slashes_accepted (P : Platform)
    (hP : P.pton AF_INET "1.2.3.4".toList = (1, [1, 2, 3, 4])) :
    (∀ str, ∃ parts, split_cidr str = .ok parts) ∧
    parse_ip_addr P "1.2.3.4/8/16".toList = .ok ⟨.IP4Prefix, [1, 2, 3, 4], 8⟩ := by
  constructor
  · intro str
    unfold split_cidr
    cases h : find_first_of str '/' with
    | none => exact ⟨_, rfl⟩
    | some first => exact ⟨(str.take first, str.drop (first + 1)), by simp⟩
  · have hsplit : split_cidr "1.2.3.4/8/16".toList = .ok ("1.2.3.4".toList, "8/16".toList) := by
      decide
    have hc : c_str "1.2.3.4".toList = "1.2.3.4".toList := by decide
    have hdec : decode_addr P "1.2.3.4".toList = .ok [1, 2, 3, 4] :=
      decode_addr_v4 P _ [1, 2, 3, 4] (by rw [hc]; exact hP)
    exact parse_ip_addr_v4 P _ _ _ _ 8 hsplit hdec rfl (by decide) (by decide)

/-- Witness of C4 on the dotted-quad platform. -/
theorem parse_ip_addr_two_slashes_accepted_witness :
    inet4_platform.pton AF_INET "1.2.3.4".toList = (1, [1, 2, 3, 4]) ∧
    ((∀ str, ∃ parts, split_cidr str = .ok parts) ∧
      parse_ip_addr inet4_platform "1.2.3.4/8/16".toList = .ok ⟨.IP4Prefix, [1, 2, 3, 4], 8⟩) :=
  ⟨by decide, parse_ip_addr_two_slashes_accepted inet4_platform (by decide)⟩

/-- C5 (evaluation at the failing inputs): for an IPv4 host entity (prefix length 32)
whose address the codec renders as the text `t`, `str()` returns the whole 16-character
buffer: `t` followed by `16 - |t|` NUL characters. The result is always 16 characters
long and is never the text `t` itself. -/
theorem str_host_is_padded_buffer (P : Platform) (e : IPPrefix) (t : List Char)
    (hv : e.variant = .IP4Prefix) (hpl : e.pl = 32)
    (ht : P.ntop AF_INET e.addr = some t) (hfit : t.length < INET_ADDRSTRLEN) :
    e.str P = .ok (t ++ List.replicate (16 - t.length) NUL) ∧
    (t ++ List.replicate (16 - t.length) NUL).length = 16 ∧
    e.str P ≠ .ok t := by
  have hfit' : t.length < 16 := hfit
  have hbuf : NUL :: List.drop (t.length + 1) (List.replicate 16 NUL)
      = List.replicate (16 - t.length) NUL := by
    rw [List.drop_replicate, ← List.replicate_succ]
    congr 1
    omega
  have hstr : e.str P = .ok (t ++ List.replicate (16 - t.length) NUL) := by
    obtain ⟨variant, m, pl⟩ := e
    simp only at hv hpl
    subst hv hpl
    simp only [IPPrefix.addr] at ht
    simp only [IPPrefix.str, IPPrefix.ipv, IPPrefix.prefix_get, IPPrefix.length,
      IPPrefix.addr, get_addrstrlen, get_addrfamily, inet_ntop, ht, INET_ADDRSTRLEN,
      List.length_replicate]
    rw [if_pos (by omega), hbuf]
    simp
  refine ⟨hstr, ?_, ?_⟩
  · simp only [List.length_append, List.length_replicate]
    omega
  · rw [hstr]
    intro h
    have hlen := congrArg List.length (Except.ok.inj h)
    simp only [List.length_append, List.length_replicate] at hlen
    omega

/-- Witness of C5: the entity parsed from `192.168.1.1` renders as the 16-character
string made of the 11 characters of `192.168.1.1` and 5 NUL characters. -/
theorem str_host_is_padded_buffer_witness :
    parse_ip_addr inet4_platform "192.168.1.1".toList
      = .ok ⟨.IP4Prefix, [192, 168, 1, 1], 32⟩ ∧
    (IPPrefix.mk .IP4Prefix [192, 168, 1, 1] 32).str inet4_platform
      = .ok ("192.168.1.1".toList ++ List.replicate (16 - "192.168.1.1".toList.length) NUL) ∧
    ("192.168.1.1".toList ++ List.replicate (16 - "192.168.1.1".toList.length) NUL).length = 16 ∧
    (IPPrefix.mk .IP4Prefix [192, 168, 1, 1] 32).str inet4_platform ≠ .ok "192.168.1.1".toList :=
  ⟨by decide,
    str_host_is_padded_buffer inet4_platform ⟨.IP4Prefix, [192, 168, 1, 1], 32⟩
      "192.168.1.1".toList rfl rfl (by decide) (by decide)⟩

/-- C6: rendering an entity and parsing the text again gives an equal entity. For
every well-formed entity `e` of either family with prefix length at most the bit width,
on a platform whose codec renders the address of `e` as a text `t` that fits the
buffer of `str()` and is proper address text (no NUL, no slash), decodes `t` back to the
same bytes, and, for an IPv6 entity, whose IPv4 decoder rejects `t`: `str()` returns a
string `s`, `parse_ip_addr(s)` returns an entity `e'`, and `e.equals(e')` is true. -/
theorem str_parse_roundtrip (P : Platform) (e : IPPrefix) (af size : Nat) (t : List Char)
    (hwf : e.wf) (hpl : e.pl ≤ e.length * 8)
    (haf : get_addrfamily e.ipv = .ok af) (hsize : get_addrstrlen e.ipv = .ok size)
    (hntop : P.ntop af e.addr = some t) (hfit : t.length < size)
    (hnul : NUL ∉ t) (hslash : '/' ∉ t)
    (hpton : P.pton af t = (1, e.addr))
    (hv4 : e.ipv = 6 → (P.pton AF_INET t).1 = 0) :
    ∃ s e', e.str P = .ok s ∧ parse_ip_addr P s = .ok e' ∧ e.equals e' = true := by
  have hself : e.equals e = true :=
    (equals_iff_of_wf e e hwf hwf).mpr ⟨rfl, rfl, rfl⟩
  obtain ⟨hlen, -, -⟩ := hwf
  obtain ⟨variant, m, pl⟩ := e
  have hrep : '/' ∉ List.replicate (size - (t.length + 1)) NUL := by
    intro h
    exact absurd (List.eq_of_mem_replicate h) (by decide)
  cases variant
  · simp only [IPPrefix.ipv, get_addrfamily, get_addrstrlen, Except.ok.injEq] at haf hsize
    subst haf hsize
    simp only [IPPrefix.length, IPPrefix.addr] at hlen hpl hntop hpton
    by_cases hhost : pl = 32
    · subst hhost
      refine ⟨t ++ NUL :: List.replicate (INET_ADDRSTRLEN - (t.length + 1)) NUL,
        ⟨.IP4Prefix, m, 32⟩, ?_, ?_, hself⟩
      · simp only [IPPrefix.str, IPPrefix.ipv, IPPrefix.prefix_get, IPPrefix.length,
          IPPrefix.addr, get_addrstrlen, get_addrfamily, inet_ntop, hntop,
          List.length_replicate]
        rw [if_pos (by omega), ntop_buffer t _]
        simp
      · refine parse_ip_addr_v4 P _ _ [] m 32 (split_cidr_host t _ hslash hrep) ?_ hlen
          (by decide) (by decide)
        have := decode_addr_v4 P (t ++ NUL :: List.replicate (INET_ADDRSTRLEN - (t.length + 1)) NUL)
          m (by rw [c_str_append_NUL t _ hnul]; exact hpton)
        rwa [array_of_eq 4 m hlen] at this
    · refine ⟨t ++ '/' :: insert_size_t pl, ⟨.IP4Prefix, m, pl⟩, ?_, ?_, hself⟩
      · simp only [IPPrefix.str, IPPrefix.ipv, IPPrefix.prefix_get, IPPrefix.length,
          IPPrefix.addr, get_addrstrlen, get_addrfamily, inet_ntop, hntop,
          List.length_replicate]
        rw [if_pos (by omega), ntop_buffer t _]
        simp only [c_str_append_NUL t _ hnul]
        rw [if_pos (by omega)]
      · refine parse_ip_addr_v4 P _ _ _ m pl (split_cidr_net t _ hslash) ?_ hlen
          (read_cidr_digits pl 32 (by omega) (by omega)) (by omega)
        have := decode_addr_v4 P t m (by rw [c_str_of_not_mem t hnul]; exact hpton)
        rwa [array_of_eq 4 m hlen] at this
  · simp only [IPPrefix.ipv, get_addrfamily, get_addrstrlen, Except.ok.injEq] at haf hsize
    subst haf hsize
    have hv4' : (P.pton AF_INET t).1 = 0 := hv4 rfl
    simp only [IPPrefix.length, IPPrefix.addr] at hlen hpl hntop hpton
    by_cases hhost : pl = 128
    · subst hhost
      refine ⟨t ++ NUL :: List.replicate (INET6_ADDRSTRLEN - (t.length + 1)) NUL,
        ⟨.IP6Prefix, m, 128⟩, ?_, ?_, hself⟩
      · simp only [IPPrefix.str, IPPrefix.ipv, IPPrefix.prefix_get, IPPrefix.length,
          IPPrefix.addr, get_addrstrlen, get_addrfamily, inet_ntop, hntop,
          List.length_replicate]
        rw [if_pos (by omega), ntop_buffer t _]
        simp
      · refine parse_ip_addr_v6 P _ _ [] m 128 (split_cidr_host t _ hslash hrep) ?_ hlen
          (by decide) (by decide)
        have := decode_addr_v6 P (t ++ NUL :: List.replicate (INET6_ADDRSTRLEN - (t.length + 1)) NUL)
          m (by rw [c_str_append_NUL t _ hnul]; exact hv4')
          (by rw [c_str_append_NUL t _ hnul]; exact hpton)
        rwa [array_of_eq 16 m hlen] at this
    · refine ⟨t ++ '/' :: insert_size_t pl, ⟨.IP6Prefix, m, pl⟩, ?_, ?_, hself⟩
      · simp only [IPPrefix.str, IPPrefix.ipv, IPPrefix.prefix_get, IPPrefix.length,
          IPPrefix.addr, get_addrstrlen, get_addrfamily, inet_ntop, hntop,
          List.length_replicate]
        rw [if_pos (by omega), ntop_buffer t _]
        simp only [c_str_append_NUL t _ hnul]
        rw [if_pos (by omega)]
      · refine parse_ip_addr_v6 P _ _ _ m pl (split_cidr_net t _ hslash) ?_ hlen
          (read_cidr_digits pl 128 (by omega) (by omega)) (by omega)
        have := decode_addr_v6 P t m (by rw [c_str_of_not_mem t hnul]; exact hv4')
          (by rw [c_str_of_not_mem t hnul]; exact hpton)
        rwa [array_of_eq 16 m hlen] at this

/-- Witness of C6: the IPv4 network entity `10.0.0.0/8` on the dotted-quad platform,
rendered as `10.0.0.0`. -/
theorem str_parse_roundtrip_witness :
    ∃ s e', (IPPrefix.mk .IP4Prefix [10, 0, 0, 0] 8).str inet4_platform = .ok s ∧
      parse_ip_addr inet4_platform s = .ok e' ∧
      (IPPrefix.mk .IP4Prefix [10, 0, 0, 0] 8).equals e' = true :=
  str_parse_roundtrip inet4_platform ⟨.IP4Prefix, [10, 0, 0, 0], 8⟩ AF_INET INET_ADDRSTRLEN
    "10.0.0.0".toList ⟨by decide, by decide, by decide⟩ (by decide) rfl rfl (by decide)
    (by decide) (by decide) (by decide) (by decide) (by decide)

/-- C7: `network()` is idempotent. For every entity (either family, any address
bytes) whose prefix length is at most the bit width, `network()` returns bytes `net`,
`ip_addr_from_mem` builds an entity from `net` with the same family and prefix length,
and `network()` of that entity returns `net` again. -/
theorem network_idempotent (e : IPPrefix) (hpl : e.pl ≤ e.length * 8) :
    ∃ net e', e.network = .ok net ∧ ip_addr_from_mem e.ipv net e.pl = .ok e' ∧
      e'.network = .ok net := by
  obtain ⟨variant, m, pl⟩ := e
  cases variant
  · simp only [IPPrefix.length] at hpl
    obtain ⟨mask, hmask⟩ := mk_bitmask_ok 4 pl (by simp [SIZE_MOD]; omega)
    refine ⟨bitmask_and 4 mask m,
      ⟨.IP4Prefix, (List.range 4).map fun i => (bitmask_and 4 mask m).getD i 0, pl⟩, ?_, ?_, ?_⟩
    · simp [IPPrefix.network, IPPrefix.length, IPPrefix.addr, hmask]
    · exact ip_addr_from_mem_4 _ pl (by omega)
    · simp only [IPPrefix.network, IPPrefix.length, IPPrefix.addr, hmask]
      rw [bitmask_and_idem]
  · simp only [IPPrefix.length] at hpl
    obtain ⟨mask, hmask⟩ := mk_bitmask_ok 16 pl (by simp [SIZE_MOD]; omega)
    refine ⟨bitmask_and 16 mask m,
      ⟨.IP6Prefix, (List.range 16).map fun i => (bitmask_and 16 mask m).getD i 0, pl⟩, ?_, ?_, ?_⟩
    · simp [IPPrefix.network, IPPrefix.length, IPPrefix.addr, hmask]
    · exact ip_addr_from_mem_6 _ pl (by omega)
    · simp only [IPPrefix.network, IPPrefix.length, IPPrefix.addr, hmask]
      rw [bitmask_and_idem]

/-- Witness of C7 at `192.168.255.255/20`. -/
theorem network_idempotent_witness :
    (IPPrefix.mk .IP4Prefix [192, 168, 255, 255] 20).pl
        ≤ (IPPrefix.mk .IP4Prefix [192, 168, 255, 255] 20).length * 8 ∧
    ∃ net e', (IPPrefix.mk .IP4Prefix [192, 168, 255, 255] 20).network = .ok net ∧
      ip_addr_from_mem (IPPrefix.mk .IP4Prefix [192, 168, 255, 255] 20).ipv net
        (IPPrefix.mk .IP4Prefix [192, 168, 255, 255] 20).pl = .ok e' ∧
      e'.network = .ok net :=
  ⟨by decide, network_idempotent ⟨.IP4Prefix, [192, 168, 255, 255], 20⟩ (by decide)⟩

/-- C8: the setter `prefix(pl)` succeeds exactly when `pl <= length()*8` (32 for an
IPv4 entity, 128 for an IPv6 entity); on success the getter returns `pl` and the
address (and the variant) are unchanged; otherwise it raises
`IPPrefixInvalidValueException` and the object is left as it was. -/
theorem prefix_set_spec (e : IPPrefix) (pl : Nat) :
    (e.length * 8 = match e.variant with | .IP4Prefix => 32 | .IP6Prefix => 128) ∧
    ((e.prefix_set pl).1 = .ok () ↔ pl ≤ e.length * 8) ∧
    (pl ≤ e.length * 8 →
      (e.prefix_set pl).2.prefix_get = pl ∧ (e.prefix_set pl).2.addr = e.addr ∧
      (e.prefix_set pl).2.variant = e.variant) ∧
    (¬ pl ≤ e.length * 8 →
      (e.prefix_set pl).1 = .error .IPPrefixInvalidValueException ∧
      (e.prefix_set pl).2 = e) := by
  refine ⟨?_, ?_, ?_, ?_⟩
  · cases h : e.variant <;> simp [IPPrefix.length, h]
  · unfold IPPrefix.prefix_set
    by_cases h : pl > e.length * 8
    · simp [h]
    · simp [h]; omega
  · intro h
    unfold IPPrefix.prefix_set
    rw [if_neg (by omega)]
    simp [IPPrefix.prefix_get, IPPrefix.addr]
  · intro h
    unfold IPPrefix.prefix_set
    rw [if_pos (by omega)]
    simp

/-- C9: for a host entity A (prefix length equal to the bit width of its family) and
any entity B, `A.matches(B)` returns, and it returns true exactly when A and B have the
same family and byte-identical addresses; the prefix length of B plays no part. -/
theorem host_matches_iff (A B : IPPrefix) (hA : A.wf) (hB : B.wf)
    (hhost : A.pl = A.length * 8) :
    ∃ r, A.matches B = .ok r ∧ (r = true ↔ A.ipv = B.ipv ∧ A.addr = B.addr) := by
  obtain ⟨hAl, hAb, -⟩ := hA
  obtain ⟨hBl, hBb, -⟩ := hB
  obtain ⟨va, ma, pa⟩ := A
  obtain ⟨vb, mb, pb⟩ := B
  cases va <;> cases vb <;> simp only [IPPrefix.length, Nat.reduceMul] at hAl hBl hhost <;>
    subst hhost
  · refine ⟨mb == ma, ?_, ?_⟩
    · unfold IPPrefix.matches IPPrefix.network
      simp only [IPPrefix.ipv, IPPrefix.length, IPPrefix.addr]
      rw [mk_bitmask_full_width_4]
      simp only [ne_eq, not_true_eq_false, if_false]
      rw [bitmask_and_comm 4 (List.replicate 4 255) ma, bitmask_and_ones 4 ma hAl hAb,
        bitmask_and_ones 4 mb hBl hBb]
    · simp only [IPPrefix.ipv, IPPrefix.addr, beq_iff_eq, true_and]
      exact eq_comm
  · exact ⟨false, by simp [IPPrefix.matches, IPPrefix.ipv], by simp [IPPrefix.ipv]⟩
  · exact ⟨false, by simp [IPPrefix.matches, IPPrefix.ipv], by simp [IPPrefix.ipv]⟩
  · refine ⟨mb == ma, ?_, ?_⟩
    · unfold IPPrefix.matches IPPrefix.network
      simp only [IPPrefix.ipv, IPPrefix.length, IPPrefix.addr]
      rw [mk_bitmask_full_width_16]
      simp only [ne_eq, not_true_eq_false, if_false]
      rw [bitmask_and_comm 16 (List.replicate 16 255) ma, bitmask_and_ones 16 ma hAl hAb,
        bitmask_and_ones 16 mb hBl hBb]
    · simp only [IPPrefix.ipv, IPPrefix.addr, beq_iff_eq, true_and]
      exact eq_comm

/-- Witness of C9: the host `10.5.6.7` against the network entity `10.5.6.7/8`. -/
theorem host_matches_iff_witness :
    ∃ r, (IPPrefix.mk .IP4Prefix [10, 5, 6, 7] 32).matches (IPPrefix.mk .IP4Prefix [10, 5, 6, 7] 8)
        = .ok r ∧
      (r = true ↔
        (IPPrefix.mk .IP4Prefix [10, 5, 6, 7] 32).ipv = (IPPrefix.mk .IP4Prefix [10, 5, 6, 7] 8).ipv ∧
        (IPPrefix.mk .IP4Prefix [10, 5, 6, 7] 32).addr
          = (IPPrefix.mk .IP4Prefix [10, 5, 6, 7] 8).addr) :=
  host_matches_iff ⟨.IP4Prefix, [10, 5, 6, 7], 32⟩ ⟨.IP4Prefix, [10, 5, 6, 7], 8⟩
    ⟨by decide, by decide, by decide⟩ ⟨by decide, by decide, by decide⟩ (by decide)

/-- C10: for entities A and B of either variant, `A.equals(B)` is true exactly when
they have the same address byte length, the same prefix length and byte-identical
addresses; and with a codec that decodes `192.168.1.1`, the entity parsed from
`192.168.1.1/32` equals the one parsed from `192.168.1.1` and does not equal the one
parsed from `192.168.1.1/24`. -/
theorem equals_iff (A B : IPPrefix) (hA : A.wf) (hB : B.wf) (P : Platform)
    (hP : P.pton AF_INET "192.168.1.1".toList = (1, [192, 168, 1, 1])) :
    (A.equals B = true ↔
      A.length = B.length ∧ A.prefix_get = B.prefix_get ∧ A.addr = B.addr) ∧
    ∃ a b c, parse_ip_addr P "192.168.1.1/32".toList = .ok a ∧
      parse_ip_addr P "192.168.1.1".toList = .ok b ∧
      parse_ip_addr P "192.168.1.1/24".toList = .ok c ∧
      a.equals b = true ∧ a.equals c = false := by
  refine ⟨equals_iff_of_wf A B hA hB, ?_⟩
  have hc : c_str "192.168.1.1".toList = "192.168.1.1".toList := by decide
  have hdec : decode_addr P "192.168.1.1".toList = .ok [192, 168, 1, 1] :=
    decode_addr_v4 P _ [192, 168, 1, 1] (by rw [hc]; exact hP)
  refine ⟨⟨.IP4Prefix, [192, 168, 1, 1], 32⟩, ⟨.IP4Prefix, [192, 168, 1, 1], 32⟩,
    ⟨.IP4Prefix, [192, 168, 1, 1], 24⟩, ?_, ?_, ?_, by decide, by decide⟩
  · exact parse_ip_addr_v4 P _ "192.168.1.1".toList "32".toList _ 32 (by decide) hdec rfl
      (by decide) (by decide)
  · exact parse_ip_addr_v4 P _ "192.168.1.1".toList [] _ 32 (by decide) hdec rfl
      (by decide) (by decide)
  · exact parse_ip_addr_v4 P _ "192.168.1.1".toList "24".toList _ 24 (by decide) hdec rfl
      (by decide) (by decide)

/-- Witness of C10: the IPv4 entity `10.0.0.0/8` against the IPv6 entity `::/8`, on the
dotted-quad platform. -/
theorem equals_iff_witness :
    ((IPPrefix.mk .IP4Prefix [10, 0, 0, 0] 8).equals
        (IPPrefix.mk .IP6Prefix [0, 0, 0, 0, 0, 0, 0, 0, 0, 0, 0, 0, 0, 0, 0, 0] 8) = true ↔
      (IPPrefix.mk .IP4Prefix [10, 0, 0, 0] 8).length
        = (IPPrefix.mk .IP6Prefix [0, 0, 0, 0, 0, 0, 0, 0, 0, 0, 0, 0, 0, 0, 0, 0] 8).length ∧
      (IPPrefix.mk .IP4Prefix [10, 0, 0, 0] 8).prefix_get
        = (IPPrefix.mk .IP6Prefix [0, 0, 0, 0, 0, 0, 0, 0, 0, 0, 0, 0, 0, 0, 0, 0] 8).prefix_get ∧
      (IPPrefix.mk .IP4Prefix [10, 0, 0, 0] 8).addr
        = (IPPrefix.mk .IP6Prefix [0, 0, 0, 0, 0, 0, 0, 0, 0, 0, 0, 0, 0, 0, 0, 0] 8).addr) ∧
    ∃ a b c, parse_ip_addr inet4_platform "192.168.1.1/32".toList = .ok a ∧
      parse_ip_addr inet4_platform "192.168.1.1".toList = .ok b ∧
      parse_ip_addr inet4_platform "192.168.1.1/24".toList = .ok c ∧
      a.equals b = true ∧ a.equals c = false :=
  equals_iff ⟨.IP4Prefix, [10, 0, 0, 0], 8⟩
    ⟨.IP6Prefix, [0, 0, 0, 0, 0, 0, 0, 0, 0, 0, 0, 0, 0, 0, 0, 0], 8⟩
    ⟨by decide, by decide, by decide⟩ ⟨by decide, by decide, by decide⟩
    inet4_platform (by decide)

/-! ### Lemmas for the factory, `matches` and `equals` -/

theorem ip_addr_from_mem_other (ipv : Nat) (addr : List Nat) (pl : Nat)
    (h4 : ipv ≠ 4) (h6 : ipv ≠ 6) :
    ip_addr_from_mem ipv addr pl = .error .IPPrefixInvalidValueException := by
  unfold ip_addr_from_mem
  split
  · exact absurd rfl h4
  · exact absurd rfl h6
  · rfl

theorem ip_addr_from_mem_4_over (addr : List Nat) (pl : Nat) (h : 32 < pl) :
    ip_addr_from_mem 4 addr pl = .error .IPPrefixInvalidValueException := by
  simp only [ip_addr_from_mem, IP4Prefix_new, IPPrefix.addr_set, IPPrefix.prefix_set,
    IPPrefix.length]
  rw [if_pos (by omega)]

theorem ip_addr_from_mem_6_over (addr : List Nat) (pl : Nat) (h : 128 < pl) :
    ip_addr_from_mem 6 addr pl = .error .IPPrefixInvalidValueException := by
  simp only [ip_addr_from_mem, IP6Prefix_new, IPPrefix.addr_set, IPPrefix.prefix_set,
    IPPrefix.length]
  rw [if_pos (by omega)]

theorem map_range_getD_eq_take (a : List Nat) (n : Nat) (h : n ≤ a.length) :
    ((List.range n).map fun i => a.getD i 0) = a.take n := by
  apply List.ext_getElem
  · simp [h]
  · intro i h1 h2
    have hi : i < n := by simpa using h1
    have hia : i < a.length := by omega
    simp [List.getD_eq_getElem?_getD, List.getElem?_eq_getElem hia]

theorem memcmp_eq_zero_iff_getD (n : Nat) : ∀ (a b : List Nat),
    memcmp a b n = 0 ↔ ∀ i, i < n → a.getD i 0 = b.getD i 0 := by
  induction n with
  | zero =>
    intro a b
    simp [memcmp]
  | succ n ih =>
    intro a b
    have hd : ∀ l : List Nat, l.headD 0 = l.getD 0 0 := by
      intro l
      cases l <;> rfl
    have tl : ∀ (l : List Nat) (i : Nat), l.tail.getD i 0 = l.getD (i + 1) 0 := by
      intro l i
      cases l <;> simp [List.getD_eq_getElem?_getD]
    simp only [memcmp]
    by_cases h1 : a.headD 0 < b.headD 0
    · simp only [h1, if_true]
      constructor
      · intro h
        cases h
      · intro h
        have := h 0 (by omega)
        rw [← hd, ← hd] at this
        omega
    · by_cases h2 : b.headD 0 < a.headD 0
      · simp only [h1, h2, if_true, if_false]
        constructor
        · intro h
          cases h
        · intro h
          have := h 0 (by omega)
          rw [← hd, ← hd] at this
          omega
      · simp only [h1, h2, if_false]
        rw [ih a.tail b.tail]
        constructor
        · intro h i hi
          cases i with
          | zero =>
            rw [← hd, ← hd]
            omega
          | succ i =>
            rw [← tl, ← tl]
            exact h i (by omega)
        · intro h i hi
          rw [tl, tl]
          exact h (i + 1) (by omega)

/-- C13: `ip_addr_from_mem(family, bytes, pl)` returns an entity exactly when the
family is 4 or 6 and `pl` is at most the bit width of that family (32 or 128). The
entity returned has `ipv()` equal to the family, `prefix()` equal to `pl`, and as
address the first 4 (resp. 16) bytes of the buffer. In every other case the call ends
with `IPPrefixInvalidValueException`. -/
theorem ip_addr_from_mem_spec (ipv : Nat) (addr : List Nat) (pl : Nat) :
    ((∃ e, ip_addr_from_mem ipv addr pl = .ok e) ↔
      (ipv = 4 ∧ pl ≤ 32) ∨ (ipv = 6 ∧ pl ≤ 128)) ∧
    (∀ e, ip_addr_from_mem ipv addr pl = .ok e →
      e.ipv = ipv ∧ e.prefix_get = pl ∧
      e.length = (if ipv = 4 then 4 else 16) ∧
      e.addr = ((List.range e.length).map fun i => addr.getD i 0) ∧
      (e.length ≤ addr.length → e.addr = addr.take e.length)) ∧
    (¬ ((ipv = 4 ∧ pl ≤ 32) ∨ (ipv = 6 ∧ pl ≤ 128)) →
      ip_addr_from_mem ipv addr pl = .error .IPPrefixInvalidValueException) := by
  by_cases h4 : ipv = 4
  · subst h4
    by_cases hpl : pl ≤ 32
    · rw [ip_addr_from_mem_4 addr pl hpl]
      refine ⟨⟨fun _ => Or.inl ⟨rfl, hpl⟩, fun _ => ⟨_, rfl⟩⟩, ?_, ?_⟩
      · intro e he
        cases he
        refine ⟨rfl, rfl, rfl, rfl, ?_⟩
        intro hlen
        exact map_range_getD_eq_take addr 4 hlen
      · intro h
        exact absurd (Or.inl ⟨rfl, hpl⟩) h
    · rw [ip_addr_from_mem_4_over addr pl (by omega)]
      refine ⟨⟨?_, ?_⟩, ?_, fun _ => rfl⟩
      · rintro ⟨e, he⟩
        cases he
      · rintro (⟨-, h⟩ | ⟨h, -⟩)
        · exact absurd h hpl
        · cases h
      · intro e he
        cases he
  · by_cases h6 : ipv = 6
    · subst h6
      by_cases hpl : pl ≤ 128
      · rw [ip_addr_from_mem_6 addr pl hpl]
        refine ⟨⟨fun _ => Or.inr ⟨rfl, hpl⟩, fun _ => ⟨_, rfl⟩⟩, ?_, ?_⟩
        · intro e he
          cases he
          refine ⟨rfl, rfl, rfl, rfl, ?_⟩
          intro hlen
          exact map_range_getD_eq_take addr 16 hlen
        · intro h
          exact absurd (Or.inr ⟨rfl, hpl⟩) h
      · rw [ip_addr_from_mem_6_over addr pl (by omega)]
        refine ⟨⟨?_, ?_⟩, ?_, fun _ => rfl⟩
        · rintro ⟨e, he⟩
          cases he
        · rintro (⟨h, -⟩ | ⟨-, h⟩)
          · cases h
          · exact absurd h hpl
        · intro e he
          cases he
    · rw [ip_addr_from_mem_other ipv addr pl h4 h6]
      refine ⟨⟨?_, ?_⟩, ?_, fun _ => rfl⟩
      · rintro ⟨e, he⟩
        cases he
      · rintro (⟨h, -⟩ | ⟨h, -⟩)
        · exact absurd h h4
        · exact absurd h h6
      · intro e he
        cases he

/-- C15: when the families of A and B differ, `A.matches(B)` is false; and the result
of `A.matches(B)` is the same for any two entities B and B' of one family with the same
address bytes, so it does not change when the prefix length of B is replaced by any
other value. -/
theorem matches_ignores_other_pl (A B : IPPrefix) :
    (A.ipv ≠ B.ipv → A.matches B = .ok false) ∧
    (∀ B' : IPPrefix, B'.ipv = B.ipv → B'.addr = B.addr → A.matches B' = A.matches B) ∧
    (∀ pl', A.matches { B with pl := pl' } = A.matches B) := by
  refine ⟨?_, ?_, ?_⟩
  · intro h
    simp [IPPrefix.matches, h]
  · intro B' hv ha
    simp only [IPPrefix.matches, hv, ha]
  · intro pl'
    rfl

/-- C20: `equals` is an equivalence relation on the entities of both variants: it is
reflexive; `A.equals(B)` and `B.equals(A)` always agree, and both are false when one
is an IPv4 entity and the other an IPv6 entity; and it is transitive. -/
theorem equals_equivalence (A B C : IPPrefix) :
    A.equals A = true ∧
    A.equals B = B.equals A ∧
    (A.variant ≠ B.variant → A.equals B = false ∧ B.equals A = false) ∧
    (A.equals B = true → B.equals C = true → A.equals C = true) := by
  have key : ∀ X Y : IPPrefix, X.equals Y = true ↔
      X.variant = Y.variant ∧ X.pl = Y.pl ∧
        ∀ i, i < X.length → X.m.getD i 0 = Y.m.getD i 0 := by
    intro X Y
    obtain ⟨vx, mx, px⟩ := X
    obtain ⟨vy, my, py⟩ := Y
    cases vx <;> cases vy <;>
      simp [IPPrefix.equals, IPPrefix.length, IPPrefix.prefix_get, IPPrefix.addr,
        memcmp_eq_zero_iff_getD]
  have hsymm : ∀ X Y : IPPrefix, X.equals Y = true → Y.equals X = true := by
    intro X Y h
    obtain ⟨h1, h2, h3⟩ := (key X Y).mp h
    refine (key Y X).mpr ⟨h1.symm, h2.symm, ?_⟩
    intro i hi
    have hl : Y.length = X.length := by simp [IPPrefix.length, h1]
    exact (h3 i (by omega)).symm
  refine ⟨(key A A).mpr ⟨rfl, rfl, fun _ _ => rfl⟩, ?_, ?_, ?_⟩
  · cases hab : A.equals B <;> cases hba : B.equals A
    · rfl
    · rw [hsymm B A hba] at hab
      cases hab
    · rw [hsymm A B hab] at hba
      cases hba
    · rfl
  · intro hne
    constructor
    · cases hab : A.equals B
      · rfl
      · exact absurd ((key A B).mp hab).1 hne
    · cases hba : B.equals A
      · rfl
      · exact absurd ((key B A).mp hba).1.symm hne
  · intro hab hbc
    obtain ⟨h1, h2, h3⟩ := (key A B).mp hab
    obtain ⟨g1, g2, g3⟩ := (key B C).mp hbc
    refine (key A C).mpr ⟨h1.trans g1, h2.trans g2, ?_⟩
    intro i hi
    have hl : B.length = A.length := by simp [IPPrefix.length, h1]
    exact (h3 i hi).trans (g3 i (by omega))

/-! ### The invariant of the entity state -/

theorem length_mul_8_lt (e : IPPrefix) : (e.length * 8) % SIZE_MOD = e.length * 8 := by
  obtain ⟨variant, m, pl⟩ := e
  cases variant <;> simp [IPPrefix.length, SIZE_MOD]

theorem parse_ip_addr_inv (P : Platform) (str : List Char) (e : IPPrefix)
    (h : parse_ip_addr P str = .ok e) :
    e.pl ≤ e.length * 8 ∧ e.m.length = e.length := by
  unfold parse_ip_addr at h
  split at h
  · cases h
  · rename_i buf pl hpl
    split at h
    · simp only [IPPrefix.prefix_set] at h
      by_cases hc : pl > (IP4Prefix_new.addr_set buf).length * 8
      · rw [if_pos hc] at h
        cases h
      · rw [if_neg hc] at h
        cases h
        exact ⟨by simpa using hc, by simp [IPPrefix.addr_set, IPPrefix.length, IP4Prefix_new]⟩
    · simp only [IPPrefix.prefix_set] at h
      by_cases hc : pl > (IP6Prefix_new.addr_set buf).length * 8
      · rw [if_pos hc] at h
        cases h
      · rw [if_neg hc] at h
        cases h
        exact ⟨by simpa using hc, by simp [IPPrefix.addr_set, IPPrefix.length, IP6Prefix_new]⟩
    · cases h

theorem ip_addr_from_mem_inv (ipv : Nat) (addr : List Nat) (pl : Nat) (e : IPPrefix)
    (h : ip_addr_from_mem ipv addr pl = .ok e) :
    e.pl ≤ e.length * 8 ∧ e.m.length = e.length := by
  by_cases h4 : ipv = 4
  · subst h4
    by_cases hpl : pl ≤ 32
    · rw [ip_addr_from_mem_4 addr pl hpl] at h
      cases h
      exact ⟨hpl, by simp [IPPrefix.length]⟩
    · rw [ip_addr_from_mem_4_over addr pl (by omega)] at h
      cases h
  · by_cases h6 : ipv = 6
    · subst h6
      by_cases hpl : pl ≤ 128
      · rw [ip_addr_from_mem_6 addr pl hpl] at h
        cases h
        exact ⟨hpl, by simp [IPPrefix.length]⟩
      · rw [ip_addr_from_mem_6_over addr pl (by omega)] at h
        cases h
    · rw [ip_addr_from_mem_other ipv addr pl h4 h6] at h
      cases h

theorem call_inv (e : IPPrefix) (c : Call) (h1 : e.pl ≤ e.length * 8)
    (h2 : e.m.length = e.length) :
    (e.call c).pl ≤ (e.call c).length * 8 ∧ (e.call c).m.length = (e.call c).length ∧
    (e.call c).variant = e.variant := by
  cases c with
  | prefix_set pl =>
    simp only [IPPrefix.call, IPPrefix.prefix_set]
    by_cases hc : pl > e.length * 8
    · rw [if_pos hc]
      exact ⟨h1, h2, rfl⟩
    · rw [if_neg hc]
      exact ⟨by simpa [IPPrefix.length] using hc, h2, rfl⟩
  | addr_set src =>
    exact ⟨h1, by simp [IPPrefix.call, IPPrefix.addr_set, IPPrefix.length], rfl⟩

theorem calls_inv (cs : List Call) : ∀ (e : IPPrefix), e.pl ≤ e.length * 8 →
    e.m.length = e.length →
    (e.calls cs).pl ≤ (e.calls cs).length * 8 ∧ (e.calls cs).m.length = (e.calls cs).length ∧
    (e.calls cs).variant = e.variant := by
  induction cs with
  | nil =>
    intro e h1 h2
    exact ⟨h1, h2, rfl⟩
  | cons c cs ih =>
    intro e h1 h2
    obtain ⟨g1, g2, g3⟩ := call_inv e c h1 h2
    obtain ⟨k1, k2, k3⟩ := ih (e.call c) g1 g2
    exact ⟨k1, k2, k3.trans g3⟩

/-- C14: every entity returned by `parse_ip_addr` or by `ip_addr_from_mem`, and every
state reached from it by a sequence of setter calls (`prefix(pl)` and `addr(src)`,
returning or throwing), has `prefixLength <= length()*8`, where `length()` is 4 for an
IPv4 entity and 16 for an IPv6 entity; the variant (family) is the one it was created
with and the address keeps `length()` bytes. -/
theorem invariant_of_calls (P : Platform) (str : List Char) (ipv : Nat) (addr : List Nat)
    (pl : Nat) (e : IPPrefix) (cs : List Call)
    (h : parse_ip_addr P str = .ok e ∨ ip_addr_from_mem ipv addr pl = .ok e) :
    (e.calls cs).prefix_get ≤ (e.calls cs).length * 8 ∧
    (e.calls cs).length = (match e.variant with | .IP4Prefix => 4 | .IP6Prefix => 16) ∧
    (e.calls cs).variant = e.variant ∧
    (e.calls cs).ipv = e.ipv ∧
    (e.calls cs).addr.length = (e.calls cs).length := by
  have hinv : e.pl ≤ e.length * 8 ∧ e.m.length = e.length := by
    rcases h with h | h
    · exact parse_ip_addr_inv P str e h
    · exact ip_addr_from_mem_inv ipv addr pl e h
  obtain ⟨k1, k2, k3⟩ := calls_inv cs e hinv.1 hinv.2
  refine ⟨k1, ?_, k3, ?_, k2⟩
  · simp only [IPPrefix.length, k3]
  · simp only [IPPrefix.ipv, k3]

/-- Witness of C14: the entity parsed from `10.0.0.0/8`, after a rejected prefix
length (33), a new address and an accepted prefix length (24). -/
theorem invariant_of_calls_witness :
    ((IPPrefix.mk .IP4Prefix [10, 0, 0, 0] 8).calls
        [.prefix_set 33, .addr_set [192, 168, 1, 1], .prefix_set 24]).prefix_get
      ≤ ((IPPrefix.mk .IP4Prefix [10, 0, 0, 0] 8).calls
        [.prefix_set 33, .addr_set [192, 168, 1, 1], .prefix_set 24]).length * 8 ∧
    ((IPPrefix.mk .IP4Prefix [10, 0, 0, 0] 8).calls
        [.prefix_set 33, .addr_set [192, 168, 1, 1], .prefix_set 24]).length
      = (match (IPPrefix.mk .IP4Prefix [10, 0, 0, 0] 8).variant with
        | .IP4Prefix => 4 | .IP6Prefix => 16) ∧
    ((IPPrefix.mk .IP4Prefix [10, 0, 0, 0] 8).calls
        [.prefix_set 33, .addr_set [192, 168, 1, 1], .prefix_set 24]).variant
      = (IPPrefix.mk .IP4Prefix [10, 0, 0, 0] 8).variant ∧
    ((IPPrefix.mk .IP4Prefix [10, 0, 0, 0] 8).calls
        [.prefix_set 33, .addr_set [192, 168, 1, 1], .prefix_set 24]).ipv
      = (IPPrefix.mk .IP4Prefix [10, 0, 0, 0] 8).ipv ∧
    ((IPPrefix.mk .IP4Prefix [10, 0, 0, 0] 8).calls
        [.prefix_set 33, .addr_set [192, 168, 1, 1], .prefix_set 24]).addr.length
      = ((IPPrefix.mk .IP4Prefix [10, 0, 0, 0] 8).calls
        [.prefix_set 33, .addr_set [192, 168, 1, 1], .prefix_set 24]).length :=
  invariant_of_calls inet4_platform "10.0.0.0/8".toList 4 [] 0
    ⟨.IP4Prefix, [10, 0, 0, 0], 8⟩
    [.prefix_set 33, .addr_set [192, 168, 1, 1], .prefix_set 24] (Or.inl (by decide))

/-! ### The mask and `matches` -/

theorem low_mask_land (k j : Nat) (h : k ≤ j) : (2 ^ k - 1) &&& (2 ^ j - 1) = 2 ^ k - 1 := by
  rw [Nat.and_pow_two_sub_one_eq_mod]
  apply Nat.mod_eq_of_lt
  have h1 : 2 ^ k ≤ 2 ^ j := Nat.pow_le_pow_right (by decide) h
  have h2 : 0 < 2 ^ k := Nat.two_pow_pos k
  omega

theorem mask_byte_subset (p q i : Nat) (hq : q ≤ p) :
    (if i < q / 8 then 255 else if i = q / 8 then 2 ^ (q % 8) - 1 else 0) &&&
      (if i < p / 8 then 255 else if i = p / 8 then 2 ^ (p % 8) - 1 else 0)
      = (if i < q / 8 then 255 else if i = q / 8 then 2 ^ (q % 8) - 1 else 0) := by
  have hdiv : q / 8 ≤ p / 8 := Nat.div_le_div_right hq
  by_cases c1 : i < q / 8
  · have c2 : i < p / 8 := by omega
    simp [c1, c2]
  · rw [if_neg c1]
    by_cases c3 : i = q / 8
    · rw [if_pos c3]
      by_cases c2 : i < p / 8
      · rw [if_pos c2]
        exact low_mask_land (q % 8) 8 (by omega)
      · have c4 : i = p / 8 := by omega
        rw [if_neg c2, if_pos c4]
        exact low_mask_land (q % 8) (p % 8) (by omega)
    · rw [if_neg c3]
      simp

theorem land_transfer (b a fp fq : Nat) (hsub : fq &&& fp = fq) (key : b &&& fp = fp &&& a) :
    b &&& fq = fq &&& a := by
  calc b &&& fq = b &&& (fp &&& fq) := by rw [Nat.land_comm fp fq, hsub]
    _ = (b &&& fp) &&& fq := (Nat.land_assoc b fp fq).symm
    _ = (fp &&& a) &&& fq := by rw [key]
    _ = fq &&& (fp &&& a) := Nat.land_comm _ _
    _ = (fq &&& fp) &&& a := (Nat.land_assoc fq fp a).symm
    _ = fq &&& a := by rw [hsub]

theorem mk_bitmask_zero_4 : mk_bitmask 4 0 = .ok (List.replicate 4 0) := by
  decide

theorem mk_bitmask_zero_16 : mk_bitmask 16 0 = .ok (List.replicate 16 0) := by
  decide

theorem bitmask_and_zeros (n : Nat) (a : List Nat) :
    bitmask_and n a (List.replicate n 0) = List.replicate n 0 := by
  apply List.ext_getElem
  · simp [bitmask_and]
  · intro i h1 h2
    have hi : i < n := by simpa using h2
    simp [bitmask_and, List.getD_eq_getElem?_getD, List.getElem?_replicate, hi]

theorem matches_of_ipv_ne (A B : IPPrefix) (h : A.ipv ≠ B.ipv) : A.matches B = .ok false := by
  simp [IPPrefix.matches, h]

theorem matches_eq_of_mask (A B : IPPrefix) (mask : List Nat) (hv : A.ipv = B.ipv)
    (hmask : mk_bitmask A.length A.pl = .ok mask) :
    A.matches B
      = .ok (bitmask_and A.length B.addr mask == bitmask_and A.length mask A.addr) := by
  simp only [IPPrefix.matches, IPPrefix.network, hmask, hv, ne_eq, not_true_eq_false,
    if_false]

/-- C19: an entity whose prefix length is at most the bit width matches itself; and an
entity with prefix length 0 matches every entity of its family. -/
theorem matches_refl_and_zero (A B : IPPrefix) (hA : A.pl ≤ A.length * 8) :
    A.matches A = .ok true ∧
    (A.pl = 0 → A.ipv = B.ipv → A.matches B = .ok true) := by
  constructor
  · obtain ⟨mask, hmask⟩ := mk_bitmask_ok A.length A.pl (by rw [length_mul_8_lt]; exact hA)
    rw [matches_eq_of_mask A A mask rfl hmask, bitmask_and_comm A.length A.addr mask]
    simp
  · intro h0 hv
    have hmask : mk_bitmask A.length A.pl = .ok (List.replicate A.length 0) := by
      obtain ⟨variant, m, pl⟩ := A
      simp only at h0
      subst h0
      cases variant
      · exact mk_bitmask_zero_4
      · exact mk_bitmask_zero_16
    rw [matches_eq_of_mask A B _ hv hmask, bitmask_and_zeros,
      bitmask_and_comm A.length _ A.addr, bitmask_and_zeros]
    simp

/-- Witness of C19: `10.0.16.0/20` matches itself, and `0.0.0.0/0` matches
`192.168.1.1`. -/
theorem matches_refl_and_zero_witness :
    (IPPrefix.mk .IP4Prefix [10, 0, 16, 0] 20).matches (IPPrefix.mk .IP4Prefix [10, 0, 16, 0] 20)
      = .ok true ∧
    (IPPrefix.mk .IP4Prefix [0, 0, 0, 0] 0).matches (IPPrefix.mk .IP4Prefix [192, 168, 1, 1] 32)
      = .ok true :=
  ⟨(matches_refl_and_zero ⟨.IP4Prefix, [10, 0, 16, 0], 20⟩ ⟨.IP4Prefix, [10, 0, 16, 0], 20⟩
      (by decide)).1,
    (matches_refl_and_zero ⟨.IP4Prefix, [0, 0, 0, 0], 0⟩ ⟨.IP4Prefix, [192, 168, 1, 1], 32⟩
      (by decide)).2 rfl rfl⟩

/-- C18: `matches` is monotone in the prefix length. For an address `a` of either
variant, an entity B and prefix lengths `q <= p <= bit width`: when the entity `(a, p)`
matches B, the entity `(a, q)` matches B too. -/
theorem matches_monotone (v : Variant) (a : List Nat) (B : IPPrefix) (p q : Nat)
    (hq : q ≤ p) (hp : p ≤ (IPPrefix.mk v a p).length * 8)
    (hm : (IPPrefix.mk v a p).matches B = .ok true) :
    (IPPrefix.mk v a q).matches B = .ok true := by
  have hv : (IPPrefix.mk v a p).ipv = B.ipv := by
    by_contra hne
    rw [matches_of_ipv_ne (IPPrefix.mk v a p) B hne] at hm
    cases hm
  have hlen : (IPPrefix.mk v a p).length * 8 < SIZE_MOD := by
    cases v <;> simp [IPPrefix.length, SIZE_MOD]
  have hmp := mk_bitmask_eq (IPPrefix.mk v a p).length p hlen hp
  have hmq := mk_bitmask_eq (IPPrefix.mk v a p).length q hlen (by omega)
  rw [matches_eq_of_mask (IPPrefix.mk v a p) B _ hv hmp] at hm
  rw [matches_eq_of_mask (IPPrefix.mk v a q) B _ hv hmq]
  have hm' := beq_iff_eq.mp (Except.ok.inj hm)
  have hm'' : ∀ i, i < (IPPrefix.mk v a p).length →
      B.addr.getD i 0 &&& (if i < p / 8 then 255 else if i = p / 8 then 2 ^ (p % 8) - 1 else 0)
        = (if i < p / 8 then 255 else if i = p / 8 then 2 ^ (p % 8) - 1 else 0)
          &&& a.getD i 0 := by
    intro i hi
    have h1 := congrArg (fun l => l.getD i 0) hm'
    simp only at h1
    rw [bitmask_and_getD _ _ _ i hi, bitmask_and_getD _ _ _ i hi,
      getD_map_range _ _ i hi] at h1
    exact h1
  congr 1
  rw [beq_iff_eq]
  unfold bitmask_and
  apply List.map_congr_left
  intro i hi
  have hi' : i < (IPPrefix.mk v a p).length := List.mem_range.mp hi
  rw [getD_map_range _ _ i hi']
  exact land_transfer _ _ _ _ (mask_byte_subset p q i hq) (hm'' i hi')

/-- Witness of C18: `10.0.16.0/20` matches `10.0.0.1` in the arithmetic of the code,
and so does `10.0.16.0/8`. -/
theorem matches_monotone_witness :
    (IPPrefix.mk .IP4Prefix [10, 0, 16, 0] 20).matches (IPPrefix.mk .IP4Prefix [10, 0, 0, 1] 32)
      = .ok true ∧
    (IPPrefix.mk .IP4Prefix [10, 0, 16, 0] 8).matches (IPPrefix.mk .IP4Prefix [10, 0, 0, 1] 32)
      = .ok true :=
  ⟨by decide,
    matches_monotone .IP4Prefix [10, 0, 16, 0] ⟨.IP4Prefix, [10, 0, 0, 1], 32⟩ 20 8
      (by decide) (by decide) (by decide)⟩

/-! ### The contract of `mk_bitmask` and the bounds of its stores -/

theorem mk_bitmask_error_iff (addr_len prefix_len : Nat) (h8 : addr_len * 8 < SIZE_MOD) :
    mk_bitmask addr_len prefix_len = .error .IPPrefixInvalidValueException ↔
      addr_len * 8 < prefix_len := by
  constructor
  · intro h
    by_contra hc
    rw [mk_bitmask_eq addr_len prefix_len h8 (by omega)] at h
    cases h
  · intro h
    unfold mk_bitmask
    rw [if_pos (by rw [Nat.mod_eq_of_lt h8]; exact h)]

theorem mk_bitmask_full_checked_eq (n : Nat) : ∀ (ret : List Nat) (i : Nat),
    i + n / 8 ≤ ret.length →
    mk_bitmask_full_checked ret i n = some (mk_bitmask_full ret i n) := by
  induction n using Nat.strong_induction_on with
  | _ n ih =>
    intro ret i hb
    by_cases h : 8 ≤ n
    · obtain ⟨k, rfl⟩ : ∃ k, n = k + 8 := ⟨n - 8, by omega⟩
      have hdiv : (k + 8) / 8 = k / 8 + 1 := by omega
      rw [mk_bitmask_full_checked, mk_bitmask_full, if_pos (by omega)]
      exact ih k (by omega) (ret.set i 0xff) (i + 1) (by simp; omega)
    · have h1 : mk_bitmask_full ret i n = (ret, i, n) := by
        unfold mk_bitmask_full
        split
        · omega
        · rfl
      have h2 : mk_bitmask_full_checked ret i n = some (ret, i, n) := by
        unfold mk_bitmask_full_checked
        split
        · omega
        · rfl
      rw [h1, h2]

theorem mk_bitmask_part_checked_eq (k : Nat) : ∀ (ret : List Nat) (p : Nat),
    (0 < k → p < ret.length) →
    mk_bitmask_part_checked ret p k = some (mk_bitmask_part ret p k) := by
  induction k with
  | zero =>
    intro ret p _
    rw [mk_bitmask_part_zero]
    cases ret <;> rfl
  | succ k ih =>
    intro ret p hp
    have hp' : p < ret.length := hp (by omega)
    rw [mk_bitmask_part_checked, mk_bitmask_part, if_pos hp']
    exact ih _ p (fun _ => by simpa using hp')

theorem mk_bitmask_checked_eq (addr_len prefix_len : Nat) (h8 : addr_len * 8 < SIZE_MOD)
    (h : prefix_len ≤ addr_len * 8) :
    ∃ mask, mk_bitmask addr_len prefix_len = .ok mask ∧
      mk_bitmask_checked addr_len prefix_len = .ok (some mask) := by
  obtain ⟨h1, h2, h3, -⟩ := mk_bitmask_full_spec prefix_len (List.replicate addr_len 0) 0
  have hfull := mk_bitmask_full_checked_eq prefix_len (List.replicate addr_len 0) 0
    (by simp; omega)
  unfold mk_bitmask mk_bitmask_checked
  rw [if_neg (by rw [Nat.mod_eq_of_lt h8]; omega), if_neg (by rw [Nat.mod_eq_of_lt h8]; omega)]
  simp only [hfull]
  generalize mk_bitmask_full (List.replicate addr_len 0) 0 prefix_len = r at h1 h2 h3
  obtain ⟨ret, p, k⟩ := r
  simp only at h1 h2 h3
  simp only [List.length_replicate] at h3
  refine ⟨mk_bitmask_part ret p k, rfl, ?_⟩
  rw [mk_bitmask_part_checked_eq k ret p (by intro hk; omega)]

/-- C16: with `addr_len * 8` representable as a `std::size_t`, `mk_bitmask(addr_len,
prefix_len)` ends with `IPPrefixInvalidValueException` exactly when
`prefix_len > addr_len * 8`; otherwise it returns exactly `addr_len` bytes, each byte
at an index below `prefix_len / 8` being `0xFF` and each byte at an index above
`prefix_len / 8` being `0x00`, so that for a multiple of 8 the mask is
`prefix_len / 8` bytes `0xFF` followed by zero bytes only. -/
theorem mk_bitmask_contract (addr_len prefix_len : Nat) (h8 : addr_len * 8 < SIZE_MOD) :
    (mk_bitmask addr_len prefix_len = .error .IPPrefixInvalidValueException ↔
      prefix_len > addr_len * 8) ∧
    (prefix_len ≤ addr_len * 8 →
      ∃ mask, mk_bitmask addr_len prefix_len = .ok mask ∧ mask.length = addr_len ∧
        (∀ i, i < prefix_len / 8 → mask.getD i 0 = 0xFF) ∧
        (∀ i, prefix_len / 8 < i → i < addr_len → mask.getD i 0 = 0x00) ∧
        (prefix_len % 8 = 0 →
          mask = List.replicate (prefix_len / 8) 0xFF
            ++ List.replicate (addr_len - prefix_len / 8) 0x00)) := by
  refine ⟨mk_bitmask_error_iff addr_len prefix_len h8, ?_⟩
  intro h
  refine ⟨_, mk_bitmask_eq addr_len prefix_len h8 h, by simp, ?_, ?_, ?_⟩
  · intro i hi
    rw [getD_map_range _ _ i (by omega)]
    simp [hi]
  · intro i hi hia
    rw [getD_map_range _ _ i hia]
    have c1 : ¬ i < prefix_len / 8 := by omega
    have c2 : ¬ i = prefix_len / 8 := by omega
    simp [c1, c2]
  · intro hmod
    apply List.ext_getElem
    · simp
      omega
    · intro i h1 h2
      have hi : i < addr_len := by simpa using h1
      simp only [List.getElem_map, List.getElem_range]
      by_cases c1 : i < prefix_len / 8
      · rw [if_pos c1, List.getElem_append_left (by simpa using c1)]
        simp
      · rw [if_neg c1, List.getElem_append_right (by simpa using c1)]
        simp only [List.getElem_replicate]
        by_cases c2 : i = prefix_len / 8
        · rw [if_pos c2, hmod]
          rfl
        · rw [if_neg c2]

/-- Witness of C16 at `mk_bitmask(4, 16)`: the mask is `FF FF 00 00`. -/
theorem mk_bitmask_contract_witness :
    (mk_bitmask 4 16 = .error .IPPrefixInvalidValueException ↔ 16 > 4 * 8) ∧
    (16 ≤ 4 * 8 →
      ∃ mask, mk_bitmask 4 16 = .ok mask ∧ mask.length = 4 ∧
        (∀ i, i < 16 / 8 → mask.getD i 0 = 0xFF) ∧
        (∀ i, 16 / 8 < i → i < 4 → mask.getD i 0 = 0x00) ∧
        (16 % 8 = 0 →
          mask = List.replicate (16 / 8) 0xFF ++ List.replicate (4 - 16 / 8) 0x00)) :=
  mk_bitmask_contract 4 16 (by decide)

/-- C17: under the invariant `prefixLength <= length()*8`, `network()` and `matches()`
return (the exception of `mk_bitmask` is not raised), and `mk_bitmask` stores only
inside its buffer: the run with every store checked against the bounds returns the
same mask. The partial-byte loop runs `prefixLength mod 8` times at the index
`prefixLength div 8`; when it runs at least once that index is below `length()`, and
when `prefixLength = length()*8` the index is `length()` and the loop runs zero
times. -/
theorem noexcept_operations_safe (A B : IPPrefix) (hA : A.pl ≤ A.length * 8) :
    (∃ net, A.network = .ok net) ∧
    (∃ r, A.matches B = .ok r) ∧
    (∃ mask, mk_bitmask A.length A.pl = .ok mask ∧
      mk_bitmask_checked A.length A.pl = .ok (some mask)) ∧
    (mk_bitmask_full (List.replicate A.length 0) 0 A.pl).2.1 = A.pl / 8 ∧
    (mk_bitmask_full (List.replicate A.length 0) 0 A.pl).2.2 = A.pl % 8 ∧
    (0 < A.pl % 8 → A.pl / 8 < A.length) ∧
    (A.pl = A.length * 8 → A.pl / 8 = A.length ∧ A.pl % 8 = 0) := by
  have h8 : A.length * 8 < SIZE_MOD := by
    obtain ⟨variant, m, pl⟩ := A
    cases variant <;> simp [IPPrefix.length, SIZE_MOD]
  obtain ⟨mask, hmask, hchecked⟩ := mk_bitmask_checked_eq A.length A.pl h8 hA
  obtain ⟨h1, h2, -, -⟩ := mk_bitmask_full_spec A.pl (List.replicate A.length 0) 0
  refine ⟨⟨bitmask_and A.length mask A.addr, ?_⟩, ?_, ⟨mask, hmask, hchecked⟩, ?_, h2, ?_, ?_⟩
  · simp only [IPPrefix.network, hmask]
  · by_cases hv : A.ipv = B.ipv
    · exact ⟨_, matches_eq_of_mask A B mask hv hmask⟩
    · exact ⟨false, matches_of_ipv_ne A B hv⟩
  · simpa using h1
  · intro hk
    omega
  · intro he
    omega

/-- Witness of C17 at the full-width host `192.168.1.1/32`. -/
theorem noexcept_operations_safe_witness :
    (∃ net, (IPPrefix.mk .IP4Prefix [192, 168, 1, 1] 32).network = .ok net) ∧
    (∃ r, (IPPrefix.mk .IP4Prefix [192, 168, 1, 1] 32).matches
      (IPPrefix.mk .IP4Prefix [10, 0, 0, 1] 8) = .ok r) ∧
    (∃ mask, mk_bitmask 4 32 = .ok mask ∧ mk_bitmask_checked 4 32 = .ok (some mask)) ∧
    (mk_bitmask_full (List.replicate 4 0) 0 32).2.1 = 32 / 8 ∧
    (mk_bitmask_full (List.replicate 4 0) 0 32).2.2 = 32 % 8 ∧
    (0 < 32 % 8 → 32 / 8 < 4) ∧
    (32 = 4 * 8 → 32 / 8 = 4 ∧ 32 % 8 = 0) :=
  noexcept_operations_safe ⟨.IP4Prefix, [192, 168, 1, 1], 32⟩ ⟨.IP4Prefix, [10, 0, 0, 1], 8⟩
    (by decide)

/-! ### The parser -/

theorem decode_addr_pos_v4 (P : Platform) (s : List Char)
    (h : 0 < (P.pton AF_INET (c_str s)).1) :
    decode_addr P s = .ok (array_of 4 (P.pton AF_INET (c_str s)).2) := by
  have h1 : ¬ (P.pton AF_INET (c_str s)).1 = 0 := by omega
  have h2 : ¬ (P.pton AF_INET (c_str s)).1 < 0 := by omega
  simp [decode_addr, inet_pton4, h1, h2]

theorem decode_addr_pos_v6 (P : Platform) (s : List Char)
    (h4 : (P.pton AF_INET (c_str s)).1 = 0) (h6 : 0 < (P.pton AF_INET6 (c_str s)).1) :
    decode_addr P s = .ok (array_of 16 (P.pton AF_INET6 (c_str s)).2) := by
  have h1 : ¬ (P.pton AF_INET6 (c_str s)).1 = 0 := by omega
  have h2 : ¬ (P.pton AF_INET6 (c_str s)).1 < 0 := by omega
  simp [decode_addr, inet_pton4, inet_pton6, h4, h1, h2]

theorem decode_addr_malformed (P : Platform) (s : List Char)
    (h4 : (P.pton AF_INET (c_str s)).1 = 0) (h6 : (P.pton AF_INET6 (c_str s)).1 = 0) :
    decode_addr P s = .error .IPPrefixParseException := by
  simp [decode_addr, inet_pton4, inet_pton6, h4, h6]

theorem split_cidr_no_slash (str : List Char) (h : '/' ∉ str) :
    split_cidr str = .ok (str, []) := by
  simp [split_cidr, find_first_of_none str '/' h]

theorem parse_ip_addr_decode_error (P : Platform) (str addr_part cidr_part : List Char)
    (f : Fault) (hsplit : split_cidr str = .ok (addr_part, cidr_part))
    (hdec : decode_addr P addr_part = .error f) :
    parse_ip_addr P str = .error f := by
  simp only [parse_ip_addr, parse_ip_addr_pl, hsplit, hdec]

/-- C12: for an input with no slash, relative to the two decoders of the platform
(applied to the input as a C string): when the IPv4 decoder accepts it, `parse_ip_addr`
returns an IPv4 entity with the 4 decoded bytes and prefix length 32; when the IPv4
decoder rejects it as malformed and the IPv6 decoder accepts it, an IPv6 entity with the
16 decoded bytes and prefix length 128; when both reject it as malformed, the call ends
with `IPPrefixParseException`. -/
theorem parse_ip_addr_no_slash (P : Platform) (str : List Char) (hns : '/' ∉ str) :
    (0 < (P.pton AF_INET (c_str str)).1 →
      parse_ip_addr P str
        = .ok ⟨.IP4Prefix, array_of 4 (P.pton AF_INET (c_str str)).2, 32⟩) ∧
    ((P.pton AF_INET (c_str str)).1 = 0 → 0 < (P.pton AF_INET6 (c_str str)).1 →
      parse_ip_addr P str
        = .ok ⟨.IP6Prefix, array_of 16 (P.pton AF_INET6 (c_str str)).2, 128⟩) ∧
    ((P.pton AF_INET (c_str str)).1 = 0 → (P.pton AF_INET6 (c_str str)).1 = 0 →
      parse_ip_addr P str = .error .IPPrefixParseException) := by
  have hsplit := split_cidr_no_slash str hns
  refine ⟨?_, ?_, ?_⟩
  · intro h4
    exact parse_ip_addr_v4 P str str [] _ 32 hsplit (decode_addr_pos_v4 P str h4)
      (array_of_length 4 _) (by decide) (by decide)
  · intro h4 h6
    exact parse_ip_addr_v6 P str str [] _ 128 hsplit (decode_addr_pos_v6 P str h4 h6)
      (array_of_length 16 _) (by decide) (by decide)
  · intro h4 h6
    exact parse_ip_addr_decode_error P str str [] _ hsplit (decode_addr_malformed P str h4 h6)

/-- Witness of C12 on the platform with both families: `192.168.1.1` gives the IPv4
host, `::1` the IPv6 host, and `not-an-ip` ends with `IPPrefixParseException`. -/
theorem parse_ip_addr_no_slash_witness :
    parse_ip_addr inet_platform "192.168.1.1".toList
      = .ok ⟨.IP4Prefix, [192, 168, 1, 1], 32⟩ ∧
    parse_ip_addr inet_platform "::1".toList
      = .ok ⟨.IP6Prefix, [0, 0, 0, 0, 0, 0, 0, 0, 0, 0, 0, 0, 0, 0, 0, 1], 128⟩ ∧
    parse_ip_addr inet_platform "not-an-ip".toList = .error .IPPrefixParseException :=
  ⟨(parse_ip_addr_no_slash inet_platform "192.168.1.1".toList (by decide)).1 (by decide),
    (parse_ip_addr_no_slash inet_platform "::1".toList (by decide)).2.1 (by decide) (by decide),
    (parse_ip_addr_no_slash inet_platform "not-an-ip".toList (by decide)).2.2
      (by decide) (by decide)⟩

theorem decode_addr_length (P : Platform) (s : List Char) (bytes : List Nat)
    (h : decode_addr P s = .ok bytes) : bytes.length = 4 ∨ bytes.length = 16 := by
  unfold decode_addr at h
  split at h
  · unfold inet_pton6 at h
    simp only at h
    split at h
    · cases h
    · split at h
      · cases h
      · cases h
        exact Or.inr (array_of_length 16 _)
  · unfold inet_pton4 at h
    simp only at h
    split at h
    · cases h
    · split at h
      · cases h
      · cases h
        exact Or.inl (array_of_length 4 _)

theorem extract_size_t_digits (c : List Char) (hne : c ≠ []) (hall : c.all isdigit = true) :
    extract_size_t c = if SIZE_MOD ≤ digits_value c then none else some (digits_value c) := by
  match c, hne, hall with
  | x :: xs, _, hall =>
    have hx : isdigit x = true := by
      simp only [List.all_cons, Bool.and_eq_true] at hall
      exact hall.1
    have hx' : 48 ≤ x.toNat ∧ x.toNat ≤ 57 := by
      simpa [isdigit] using hx
    have hsp : isspace x = false := by
      simp only [isspace, Bool.or_eq_false_iff, beq_eq_false_iff_ne, Bool.and_eq_false_iff,
        decide_eq_false_iff_not]
      constructor
      · omega
      · right
        omega
    have hminus : x ≠ '-' := by
      intro h
      subst h
      exact absurd hx' (by decide)
    have hplus : x ≠ '+' := by
      intro h
      subst h
      exact absurd hx' (by decide)
    have hdrop : List.dropWhile isspace (x :: xs) = x :: xs := by
      simp [List.dropWhile, hsp]
    have htake : List.takeWhile isdigit (x :: xs) = x :: xs := by
      rw [List.takeWhile_eq_self_iff]
      intro a ha
      exact List.all_eq_true.mp hall a ha
    have hmatch : ∀ l : List Char, l = x :: xs →
        (match l with
          | '-' :: r => (true, r)
          | '+' :: r => (false, r)
          | _ => (false, l)) = (false, x :: xs) := by
      intro l hl
      split
      · rename_i r
        exact absurd (List.cons.inj hl).1.symm hminus
      · rename_i r
        exact absurd (List.cons.inj hl).1.symm hplus
      · rw [hl]
    unfold extract_size_t
    simp only [hdrop]
    rw [hmatch (x :: xs) rfl]
    simp [htake]

theorem parse_ip_addr_cidr_error (P : Platform) (str addr_part cidr_part : List Char)
    (ret : List Nat) (f : Fault) (hsplit : split_cidr str = .ok (addr_part, cidr_part))
    (hdec : decode_addr P addr_part = .ok ret)
    (hcidr : read_cidr cidr_part (ret.length * 8) = .error f) :
    parse_ip_addr P str = .error f := by
  simp only [parse_ip_addr, parse_ip_addr_pl, hsplit, hdec, hcidr]

theorem read_cidr_nonempty (c : List Char) (full_len : Nat) (hne : c ≠ []) :
    read_cidr c full_len =
      match extract_size_t c with
      | some n => if n ≤ full_len then .ok n else .error .IPPrefixParseException
      | none => .error .IPPrefixParseException := by
  have hemp : c.isEmpty = false := by
    cases c with
    | nil => exact absurd rfl hne
    | cons x xs => rfl
  unfold read_cidr
  rw [hemp]
  cases h : extract_size_t c with
  | none => simp
  | some n =>
    by_cases hn : n ≤ full_len
    · have hn' : ¬ n > full_len := by omega
      simp [hn, hn']
    · have hn' : n > full_len := by omega
      simp [hn, hn']

theorem parse_ip_addr_cidr_eq (P : Platform) (addr_text cidr_text : List Char)
    (bytes : List Nat) (hslash : '/' ∉ addr_text) (hne : cidr_text ≠ [])
    (hdec : decode_addr P addr_text = .ok bytes) :
    parse_ip_addr P (addr_text ++ '/' :: cidr_text) =
      match extract_size_t cidr_text with
      | some n =>
        if n ≤ bytes.length * 8 then
          .ok ⟨if bytes.length = 4 then .IP4Prefix else .IP6Prefix, bytes, n⟩
        else .error .IPPrefixParseException
      | none => .error .IPPrefixParseException := by
  have hsplit := split_cidr_net addr_text cidr_text hslash
  have hread := read_cidr_nonempty cidr_text (bytes.length * 8) hne
  cases hex : extract_size_t cidr_text with
  | none =>
    rw [hex] at hread
    exact parse_ip_addr_cidr_error P _ _ _ bytes _ hsplit hdec hread
  | some n =>
    rw [hex] at hread
    simp only at hread ⊢
    by_cases hn : n ≤ bytes.length * 8
    · rw [if_pos hn] at hread
      rw [if_pos hn]
      rcases decode_addr_length P addr_text bytes hdec with h4 | h16
      · rw [h4] at hread hn
        rw [if_pos h4]
        exact parse_ip_addr_v4 P _ _ _ bytes n hsplit hdec h4 hread hn
      · rw [h16] at hread hn
        rw [if_neg (by omega)]
        exact parse_ip_addr_v6 P _ _ _ bytes n hsplit hdec h16 hread hn
    · rw [if_neg hn] at hread
      rw [if_neg hn]
      exact parse_ip_addr_cidr_error P _ _ _ bytes _ hsplit hdec hread

/-- C11 (counterexample): on the dotted-quad platform, `1.2.3.4/8abc` is parsed to the
entity `1.2.3.4/8` although `8abc` is not a decimal integer (digits followed by other
characters), and `1.2.3.4/`, with an empty prefix length, is parsed to the host
`1.2.3.4` (prefix length 32); neither ends with `IPPrefixParseException`. -/
theorem parse_ip_addr_cidr_counterexample :
    inet4_platform.pton AF_INET "1.2.3.4".toList = (1, [1, 2, 3, 4]) ∧
    '/' ∉ "8abc".toList ∧ "8abc".toList.all isdigit = false ∧
    parse_ip_addr inet4_platform "1.2.3.4/8abc".toList = .ok ⟨.IP4Prefix, [1, 2, 3, 4], 8⟩ ∧
    parse_ip_addr inet4_platform "1.2.3.4/".toList = .ok ⟨.IP4Prefix, [1, 2, 3, 4], 32⟩ := by
  decide

/-- C11 (amended): for an input `ADDR/P` whose address part holds no slash and is
decoded by the parser to `bytes` (4 bytes by the IPv4 decoder, or 16 bytes by the IPv6
decoder), and whose part `P` after the slash is not empty: `parse_ip_addr` succeeds
exactly when the stream extraction of a `std::size_t` from `P` succeeds with a value
at most the bit width (32 or 128), the prefix length of the entity is then the
extracted value, and in every other case the call ends with `IPPrefixParseException`.
In particular, when `P` consists of decimal digits only, the call succeeds exactly
when the value of `P` is at most the bit width, with that value as prefix length. -/
theorem parse_ip_addr_cidr (P : Platform) (addr_text cidr_text : List Char)
    (bytes : List Nat) (hslash : '/' ∉ addr_text) (hne : cidr_text ≠ [])
    (hdec : decode_addr P addr_text = .ok bytes) :
    (bytes.length * 8 = 32 ∨ bytes.length * 8 = 128) ∧
    (parse_ip_addr P (addr_text ++ '/' :: cidr_text) =
      match extract_size_t cidr_text with
      | some n =>
        if n ≤ bytes.length * 8 then
          .ok ⟨if bytes.length = 4 then .IP4Prefix else .IP6Prefix, bytes, n⟩
        else .error .IPPrefixParseException
      | none => .error .IPPrefixParseException) ∧
    (cidr_text.all isdigit = true →
      parse_ip_addr P (addr_text ++ '/' :: cidr_text) =
        if digits_value cidr_text ≤ bytes.length * 8 then
          .ok ⟨if bytes.length = 4 then .IP4Prefix else .IP6Prefix, bytes,
            digits_value cidr_text⟩
        else .error .IPPrefixParseException) := by
  have hw : bytes.length * 8 = 32 ∨ bytes.length * 8 = 128 := by
    rcases decode_addr_length P addr_text bytes hdec with h | h <;> omega
  have hmain := parse_ip_addr_cidr_eq P addr_text cidr_text bytes hslash hne hdec
  refine ⟨hw, hmain, ?_⟩
  intro hall
  rw [hmain, extract_size_t_digits cidr_text hne hall]
  by_cases hbig : SIZE_MOD ≤ digits_value cidr_text
  · have hgt : ¬ digits_value cidr_text ≤ bytes.length * 8 := by
      have : SIZE_MOD = 18446744073709551616 := by decide
      omega
    rw [if_pos hbig, if_neg hgt]
  · rw [if_neg hbig]

/-- Witness of C11: on the dotted-quad platform `1.2.3.4/99` ends with
`IPPrefixParseException` and `1.2.3.4/24` gives the entity `1.2.3.4/24`. -/
theorem parse_ip_addr_cidr_witness :
    parse_ip_addr inet4_platform "1.2.3.4/99".toList = .error .IPPrefixParseException ∧
    parse_ip_addr inet4_platform "1.2.3.4/24".toList = .ok ⟨.IP4Prefix, [1, 2, 3, 4], 24⟩ :=
  ⟨((parse_ip_addr_cidr inet4_platform "1.2.3.4".toList "99".toList [1, 2, 3, 4]
      (by decide) (by decide) (by decide)).2.2 (by decide)).trans (by decide),
    ((parse_ip_addr_cidr inet4_platform "1.2.3.4".toList "24".toList [1, 2, 3, 4]
      (by decide) (by decide) (by decide)).2.2 (by decide)).trans (by decide)⟩

/-! ### The IPv6 scenarios on the platform with both families -/

theorem ipv6_codec_example :
    inet_platform.ntop AF_INET6 [0, 0, 0, 0, 0, 0, 0, 0, 0, 0, 0, 0, 0, 0, 0, 1]
      = some "::1".toList ∧
    inet_platform.pton AF_INET6 "::1".toList
      = (1, [0, 0, 0, 0, 0, 0, 0, 0, 0, 0, 0, 0, 0, 0, 0, 1]) ∧
    (inet_platform.pton AF_INET "::1".toList).1 = 0 ∧
    NUL ∉ "::1".toList ∧ '/' ∉ "::1".toList := by
  decide

theorem ipv6_roundtrip_example :
    (IPPrefix.mk .IP6Prefix [0, 0, 0, 0, 0, 0, 0, 0, 0, 0, 0, 0, 0, 0, 0, 1] 128).str inet_platform
      = .ok ("::1".toList ++ List.replicate 43 NUL) ∧
    parse_ip_addr inet_platform ("::1".toList ++ List.replicate 43 NUL)
      = .ok ⟨.IP6Prefix, [0, 0, 0, 0, 0, 0, 0, 0, 0, 0, 0, 0, 0, 0, 0, 1], 128⟩ ∧
    (IPPrefix.mk .IP6Prefix [0x20, 0x01, 0x0d, 0xb8, 0, 0, 0, 0, 0, 0, 0, 0, 0, 0, 0, 0] 32).str
        inet_platform
      = .ok "2001:db8::/32".toList ∧
    parse_ip_addr inet_platform "2001:db8::/32".toList
      = .ok ⟨.IP6Prefix, [0x20, 0x01, 0x0d, 0xb8, 0, 0, 0, 0, 0, 0, 0, 0, 0, 0, 0, 0], 32⟩ := by
  decide

end spf

